import Mathlib

/-!
Verification of the ioterra kanban backend.

A shallow embedding of the backend of the ioterra kanban application
(`backend/src/routes.ts`, `backend/src/auth/routes.ts`,
`backend/src/auth/middleware.ts`, `backend/src/auth/trustedDevice.ts`,
`frontend/src/App.tsx`) together with proofs about the card ordering
engine, board isolation, authentication and admin user management.

Modelling conventions:
* The relational card table is a `List Card`; prisma queries are filters,
  `orderBy position asc` is an insertion sort on the `position` field, and a
  prisma `$transaction` of row updates is a single functional update of the
  list.  Database-generated UUIDs are modelled by `freshId`, which is fresh
  by construction.
* JS strings are lists of Unicode code points (`Str := List Nat`);
  `toLowerCase` lower-cases ASCII letters, `includes "@"` is membership of
  code point 64, `trim` strips ASCII spaces.
* Cryptographic primitives are abstracted injectively: `sha256` is the
  identity on token nonces, a password hash is the password itself and a
  TOTP code is valid iff it equals the expected code derived from the
  secret (modelled as the secret itself).
-/

namespace Kanban

/-- JS strings, modelled as lists of code points. -/
abbrev Str := List Nat

/-- ASCII lower-casing of one code point (`String.prototype.toLowerCase`
restricted to the ASCII range used by the repertoire of logins). -/
def lowerCode (c : Nat) : Nat := if 65 ≤ c ∧ c ≤ 90 then c + 32 else c

/-- `s.toLowerCase()`. -/
def lowerStr (s : Str) : Str := s.map lowerCode

/-- `a` equals `b` under prisma `mode: "insensitive"` comparison. -/
def eqCI (a b : Str) : Bool := lowerStr a == lowerStr b

/-- `s.includes("@")` — code point 64 is `@`. -/
def hasAt (s : Str) : Bool := s.contains 64

/-- `s.trim()` (ASCII spaces). -/
def trimStr (s : Str) : Str :=
  ((s.dropWhile (· == 32)).reverse.dropWhile (· == 32)).reverse

/-- The literal `"admin"`. -/
def adminStr : Str := [97, 100, 109, 105, 110]

/-- The literal `"admin@local"`. -/
def adminEmail : Str := [97, 100, 109, 105, 110, 64, 108, 111, 99, 97, 108]

/-- `HttpError(status, message)` from `utils/httpError.ts`; messages are kept
as ASCII code-point lists via `Str`.  To keep statements readable each error
site gets a named abbreviation below. -/
structure HttpError where
  status : Nat
  message : String
  deriving DecidableEq, Repr

/-- `new HttpError(404, "Card not found")`. -/
def cardNotFound : HttpError := ⟨404, "Card not found"⟩

/-- `new HttpError(401, "Invalid credentials")`. -/
def invalidCredentials : HttpError := ⟨401, "Invalid credentials"⟩

/-- `new HttpError(400, "Ambiguous login, use email")`. -/
def ambiguousLogin : HttpError := ⟨400, "Ambiguous login, use email"⟩

/-- `new HttpError(401, "Two-factor required")`. -/
def twoFactorRequired : HttpError := ⟨401, "Two-factor required"⟩

/-- `new HttpError(401, "Invalid 2FA code")`. -/
def invalid2faCode : HttpError := ⟨401, "Invalid 2FA code"⟩

/-- `new HttpError(500, "2FA misconfigured")`. -/
def twoFaMisconfigured : HttpError := ⟨500, "2FA misconfigured"⟩

instance {ε α : Type _} [DecidableEq ε] [DecidableEq α] :
    DecidableEq (Except ε α) := fun a b =>
  match a, b with
  | .ok x, .ok y =>
    if h : x = y then isTrue (by rw [h])
    else isFalse (by intro hh; cases hh; exact h rfl)
  | .error x, .error y =>
    if h : x = y then isTrue (by rw [h])
    else isFalse (by intro hh; cases hh; exact h rfl)
  | .ok _, .error _ => isFalse (by intro hh; cases hh)
  | .error _, .ok _ => isFalse (by intro hh; cases hh)

/-! ## The card table (`backend/src/routes.ts`) -/

/-- The six workflow columns (`domain.ts` `ColumnIds`). -/
inductive ColumnId
  | BACKLOG
  | HIGH_PRIORITY
  | TODO
  | IN_PROGRESS
  | READY_FOR_ACCEPTANCE
  | DONE
  deriving DecidableEq, Repr

/-- A row of the `Card` table, restricted to the fields the ordering engine
and the notification dispatcher read: primary key, board, column, integer
position, and the participant user ids (`CardParticipant` child rows). -/
structure Card where
  id : Nat
  boardId : Nat
  column : ColumnId
  position : Nat
  participants : List Nat
  deriving DecidableEq, Repr

/-- `clamp(n, min, max)` from `routes.ts`. -/
def clamp (n lo hi : Nat) : Nat := max lo (min hi n)

/-- The prisma `where: { boardId, column }` predicate. -/
def isInCol (b : Nat) (col : ColumnId) (c : Card) : Bool :=
  c.boardId == b && c.column == col

/-- `prisma.card.findMany({ where: { boardId, column } })` (unordered). -/
def colCards (s : List Card) (b : Nat) (col : ColumnId) : List Card :=
  s.filter (isInCol b col)

/-- The multiset of positions stored in one `(boardId, column)` partition. -/
def positionsOf (s : List Card) (b : Nat) (col : ColumnId) : List Nat :=
  (colCards s b col).map (·.position)

/-- One step of insertion sort on the `position` field. -/
def insertByPos (c : Card) : List Card → List Card
  | [] => [c]
  | d :: ds => if c.position ≤ d.position then c :: d :: ds else d :: insertByPos c ds

/-- `orderBy: { position: "asc" }`: a stable sort on `position`. -/
def sortByPos (l : List Card) : List Card := l.foldr insertByPos []

/-- The ordered id list of a partition — what the move handler's
`findMany({ ..., orderBy: { position: "asc" }, select: { id: true } })`
returns. -/
def order (s : List Card) (b : Nat) (col : ColumnId) : List Nat :=
  (sortByPos (colCards s b col)).map (·.id)

/-- The density invariant of a partition: its stored positions are exactly
`{0, …, n-1}` where `n` is the number of cards in the partition. -/
def Dense (s : List Card) (b : Nat) (col : ColumnId) : Prop :=
  (positionsOf s b col).Perm (List.range (colCards s b col).length)

instance (s : List Card) (b : Nat) (col : ColumnId) : Decidable (Dense s b col) :=
  inferInstanceAs (Decidable (List.Perm _ _))

/-- Primary keys of the card table are pairwise distinct (database primary
key constraint). -/
def IdsNodup (s : List Card) : Prop := (s.map (·.id)).Nodup

instance (s : List Card) : Decidable (IdsNodup s) :=
  inferInstanceAs (Decidable (List.Nodup _))

/-- A fresh primary key, modelling the database-generated UUID of a new row. -/
def freshId (s : List Card) : Nat := (s.map (·.id)).foldr max 0 + 1

/-- Position given to a new card:
`(await prisma.card.aggregate({ _max: { position } }))._max.position ?? -1) + 1`. -/
def nextPosition (s : List Card) (b : Nat) (col : ColumnId) : Nat :=
  let ps := positionsOf s b col
  if ps.isEmpty then 0 else ps.foldr max 0 + 1

/-- `POST /cards` (routes.ts): append a card at the end of its partition. -/
def createCard (s : List Card) (b : Nat) (col : ColumnId) : List Card :=
  s ++ [{ id := freshId s, boardId := b, column := col,
          position := nextPosition s b col, participants := [] }]

/-- `DELETE /cards/:id` (routes.ts): look up the card scoped to the active
board, else 404; delete the row.  No position in the partition is rewritten. -/
def deleteCard (s : List Card) (b : Nat) (cid : Nat) :
    Except HttpError (List Card) :=
  match s.find? (fun c => c.id == cid && c.boardId == b) with
  | none => .error cardNotFound
  | some _ => .ok (s.filter (fun c => c.id != cid))

/-- `GET /cards/:id` (routes.ts): `findFirst({ where: { id, boardId } })`,
404 when the card is absent or belongs to another board. -/
def getCard (s : List Card) (b : Nat) (cid : Nat) : Except HttpError Card :=
  match s.find? (fun c => c.id == cid && c.boardId == b) with
  | none => .error cardNotFound
  | some c => .ok c

/-- `l.splice(idx, 0, a)`: insert `a` at index `i`. -/
def insertAt (i : Nat) (a : α) (l : List α) : List α := l.take i ++ a :: l.drop i

/-- The same-column transaction of the move handler: for every `(cardId,
position)` pair of the recomputed id list, `update({ where: { id: cardId },
data: { position } })`. -/
def setPositions (ids : List Nat) (s : List Card) : List Card :=
  s.map fun c => if c.id ∈ ids then { c with position := ids.indexOf c.id } else c

/-- The cross-column transaction of the move handler: renumber the source
list, renumber the destination list, and set the moved card's `column` in the
same write. -/
def applyCross (newFrom newTo : List Nat) (cid : Nat) (toCol : ColumnId)
    (s : List Card) : List Card :=
  s.map fun c =>
    if c.id ∈ newFrom then { c with position := newFrom.indexOf c.id }
    else if c.id ∈ newTo then
      { c with position := newTo.indexOf c.id,
               column := if c.id = cid then toCol else c.column }
    else c

/-- The `"moved"` notification dispatched (fire-and-forget) by
`notifyCardParticipants`: event metadata plus the recipients, i.e. the
card's participants minus the actor. -/
structure MoveEvent where
  cardId : Nat
  fromColumn : ColumnId
  toColumn : ColumnId
  recipients : List Nat
  deriving DecidableEq, Repr

/-- `POST /cards/:id/move` (routes.ts).  Returns the rewritten card table
together with the notification dispatched, if any (the same-column branch
responds without notifying). -/
def moveCard (s : List Card) (b : Nat) (actorId : Nat) (cid : Nat)
    (toCol : ColumnId) (toIndex : Nat) :
    Except HttpError (List Card × Option MoveEvent) :=
  match s.find? (fun c => c.id == cid && c.boardId == b) with
  | none => .error cardNotFound
  | some card =>
    let fromCol := card.column
    let fromIds := order s b fromCol
    if fromCol = toCol then
      let ids := fromIds.erase cid
      let idx := clamp toIndex 0 ids.length
      let ids2 := insertAt idx cid ids
      .ok (setPositions ids2 s, none)
    else
      let toIds := order s b toCol
      let newFrom := fromIds.erase cid
      let newTo0 := toIds.erase cid
      let idx := clamp toIndex 0 newTo0.length
      let newTo := insertAt idx cid newTo0
      .ok (applyCross newFrom newTo cid toCol s,
           some { cardId := cid, fromColumn := fromCol, toColumn := toCol,
                  recipients := card.participants.filter (fun uid => uid != actorId) })

/-- The card-mutating operations whose effect on positions the spec's
density invariant quantifies over (deletion is kept separate because the
delete handler never rewrites positions). -/
inductive CardOp
  | create (b : Nat) (col : ColumnId)
  | move (b : Nat) (actorId : Nat) (cid : Nat) (toCol : ColumnId) (toIndex : Nat)

/-- Run one handler; an `HttpError` response leaves the table unchanged. -/
def applyCardOp (op : CardOp) (s : List Card) : List Card :=
  match op with
  | .create b col => createCard s b col
  | .move b actorId cid toCol toIndex =>
    match moveCard s b actorId cid toCol toIndex with
    | .ok (s', _) => s'
    | .error _ => s

/-- Run a sequence of handlers left to right. -/
def runCardOps (ops : List CardOp) (s : List Card) : List Card :=
  ops.foldl (fun s op => applyCardOp op s) s

/-! ## Users, sessions, two-factor and password reset
(`backend/src/auth/routes.ts`, `auth/middleware.ts`, `auth/trustedDevice.ts`) -/

/-- The prisma `Role` enum. -/
inductive Role
  | ADMIN
  | MEMBER
  deriving DecidableEq, Repr

/-- A row of the `User` table restricted to the fields the authentication
and admin-management handlers read.  `password` models `passwordHash`
(`verifyPassword` then becomes equality), `totpSecret` models the confirmed
TOTP secret. -/
structure User where
  id : Nat
  email : Str
  name : Str
  password : Str
  role : Role
  isSystem : Bool
  totpEnabled : Bool
  totpSecret : Option Nat
  mustChangePassword : Bool
  deriving DecidableEq, Repr

/-- A row of the `TrustedDevice` table (`tokenHash` is the sha256 of the
cookie token; sha256 is modelled as the identity on token nonces). -/
structure TrustedDevice where
  userId : Nat
  tokenHash : Nat
  expiresAt : Nat
  deriving DecidableEq, Repr

/-- `verifyTotp` (`auth/totp.ts` wrapping otplib): a code is valid iff it is
the code currently derived from the secret, modelled as the secret itself. -/
def verifyTotp (token secret : Nat) : Bool := token == secret

/-- `verifyTrustedDeviceToken` (`auth/trustedDevice.ts`): a trusted-device
row for this user with this token hash and `expiresAt > now` must exist.
(The code additionally bumps `lastUsedAt`, which nothing here reads.) -/
def verifyTrustedDeviceToken (devices : List TrustedDevice)
    (userId token now : Nat) : Bool :=
  devices.any fun d => d.userId == userId && d.tokenHash == token && now < d.expiresAt

/-- Identifier resolution of `POST /auth/login`: the `"admin"` alias, an
email when the identifier contains `@`, else a display name that must match
at most one user case-insensitively (`take: 2`). -/
def resolveLoginUser (users : List User) (loginId : Str) :
    Except HttpError (Option User) :=
  let normalized := trimStr loginId
  let lower := lowerStr normalized
  if lower == adminStr then
    .ok (users.find? fun u => eqCI u.email adminEmail)
  else if hasAt normalized then
    .ok (users.find? fun u => eqCI u.email normalized)
  else
    let ms := (users.filter fun u => eqCI u.name normalized).take 2
    if ms.length == 1 then .ok ms.head?
    else if 1 < ms.length then .error ambiguousLogin
    else .ok none

/-- The session record established by a successful login
(`req.session.user`, `req.session.twoFactorPassed`). -/
structure SessionData where
  userId : Nat
  twoFactorPassed : Bool
  deriving DecidableEq, Repr

/-- `POST /auth/login` (auth/routes.ts).  Board-selection bookkeeping and
trusted-device issuance (side effects of the success path not read by any
claim) are not modelled; the returned `SessionData` is the session the
handler persists before responding. -/
def login (users : List User) (devices : List TrustedDevice)
    (loginId password : Str) (totp : Option Nat) (cookieToken : Option Nat)
    (now : Nat) : Except HttpError SessionData :=
  match resolveLoginUser users loginId with
  | .error e => .error e
  | .ok none => .error invalidCredentials
  | .ok (some u) =>
    if password != u.password then .error invalidCredentials
    else
      let gate : Except HttpError Unit :=
        if u.totpEnabled then
          match u.totpSecret with
          | none => .error twoFaMisconfigured
          | some secret =>
            match totp with
            | some code =>
              if verifyTotp code secret then .ok () else .error invalid2faCode
            | none =>
              let ok := match cookieToken with
                | some t => verifyTrustedDeviceToken devices u.id t now
                | none => false
              if ok then .ok () else .error twoFactorRequired
        else .ok ()
      match gate with
      | .error e => .error e
      | .ok _ =>
        .ok { userId := u.id,
              twoFactorPassed := if !u.totpEnabled then false else true }

/-- A row of the `session` store (connect-pg-simple): session id of the
cookie, and the `sess->'user'->>'userId'` field. -/
structure SessionRow where
  sid : Nat
  userId : Nat
  deriving DecidableEq, Repr

/-- A row of the `PasswordResetToken` table; `used` models `usedAt ≠ null`. -/
structure ResetToken where
  rtid : Nat
  tokenHash : Nat
  userId : Nat
  expiresAt : Nat
  used : Bool
  deriving DecidableEq, Repr

/-- The authentication-related tables touched by the password-reset flows. -/
structure AuthDb where
  users : List User
  sessions : List SessionRow
  devices : List TrustedDevice
  resetTokens : List ResetToken
  deriving DecidableEq, Repr

/-- `new HttpError(400, "Invalid or expired token")`. -/
def invalidResetToken : HttpError := ⟨400, "Invalid or expired token"⟩

/-- `new HttpError(400, "Password reset not available")`. -/
def resetNotAvailable : HttpError := ⟨400, "Password reset not available"⟩

/-- `new HttpError(400, "Invalid code")`. -/
def invalidResetCode : HttpError := ⟨400, "Invalid code"⟩

/-- `POST /auth/password/reset` (auth/routes.ts): redeem an unused,
unexpired emailed token; set the new password hash, clear
`mustChangePassword`, mark the token used and delete every `session` row of
the user.  The transaction does not touch the `TrustedDevice` table. -/
def resetPassword (db : AuthDb) (token : Nat) (newPassword : Str) (now : Nat) :
    Except HttpError AuthDb :=
  match db.resetTokens.find?
      (fun r => r.tokenHash == token && now < r.expiresAt && !r.used) with
  | none => .error invalidResetToken
  | some r =>
    .ok { db with
      users := db.users.map fun u =>
        if u.id = r.userId then
          { u with password := newPassword, mustChangePassword := false }
        else u,
      resetTokens := db.resetTokens.map fun t =>
        if t.rtid = r.rtid then { t with used := true } else t,
      sessions := db.sessions.filter fun sr => sr.userId != r.userId }

/-- Identifier resolution of `POST /auth/password/reset-by-totp`: an email
when the identifier contains `@`, else an unambiguous case-insensitive
display name (no `"admin"` alias here, and no distinguishable ambiguity
error — two or more matches simply resolve to no user). -/
def resolveResetUser (users : List User) (loginId : Str) : Option User :=
  let normalized := trimStr loginId
  let lower := lowerStr normalized
  if hasAt normalized then users.find? fun u => eqCI u.email normalized
  else
    let ms := (users.filter fun u => eqCI u.name lower).take 2
    if ms.length == 1 then ms.head? else none

/-- `POST /auth/password/reset-by-totp` (auth/routes.ts): resolve the
identifier, require an enabled TOTP with a valid current code, then set the
new password, delete every `session` row of the user and delete every
`TrustedDevice` row of the user. -/
def resetPasswordByTotp (db : AuthDb) (loginId : Str) (code : Nat)
    (newPassword : Str) : Except HttpError AuthDb :=
  match resolveResetUser db.users loginId with
  | none => .error resetNotAvailable
  | some u =>
    if !u.totpEnabled then .error resetNotAvailable
    else
      match u.totpSecret with
      | none => .error resetNotAvailable
      | some secret =>
        if !(verifyTotp code secret) then .error invalidResetCode
        else
          .ok { db with
            users := db.users.map fun v =>
              if v.id = u.id then
                { v with password := newPassword, mustChangePassword := false }
              else v,
            sessions := db.sessions.filter fun sr => sr.userId != u.id,
            devices := db.devices.filter fun d => d.userId != u.id }

/-- A session cookie authorizes only while its `session` row still exists in
the store (`req.session.user?.userId` resolves through the row). -/
def sessionAlive (db : AuthDb) (sid : Nat) : Bool :=
  db.sessions.any fun sr => sr.sid == sid

/-! ## Admin user management (`auth/routes.ts`) -/

/-- `new HttpError(404, "User not found")`. -/
def userNotFound : HttpError := ⟨404, "User not found"⟩

/-- `new HttpError(400, "Cannot change role for system admin")`. -/
def cannotChangeSystemRole : HttpError := ⟨400, "Cannot change role for system admin"⟩

/-- `new HttpError(400, "Cannot demote last admin")`. -/
def cannotDemoteLastAdmin : HttpError := ⟨400, "Cannot demote last admin"⟩

/-- `new HttpError(400, "Cannot delete yourself")`. -/
def cannotDeleteSelf : HttpError := ⟨400, "Cannot delete yourself"⟩

/-- `new HttpError(400, "Cannot delete system admin")`. -/
def cannotDeleteSystemAdmin : HttpError := ⟨400, "Cannot delete system admin"⟩

/-- `new HttpError(400, "Cannot delete last admin")`. -/
def cannotDeleteLastAdmin : HttpError := ⟨400, "Cannot delete last admin"⟩

/-- `prisma.user.count({ where: { role: Role.ADMIN } })`. -/
def adminCount (users : List User) : Nat :=
  (users.filter fun u => u.role == Role.ADMIN).length

/-- The role update performed inside the `PATCH /auth/users/:id`
transaction (`data.role !== undefined ? { role } : {}`). -/
def applyRole (users : List User) (targetId : Nat) (newRole : Option Role) :
    List User :=
  users.map fun v =>
    if v.id = targetId then { v with role := newRole.getD v.role } else v

/-- `PATCH /auth/users/:id` (auth/routes.ts), restricted to its role
handling: 404 on an unknown id, a system admin's role can never be supplied,
a demotion of an ADMIN requires a second admin to exist.  The email-change
branch touches no role and is orthogonal to every claim about this
handler. -/
def patchUserRole (users : List User) (targetId : Nat) (newRole : Option Role) :
    Except HttpError (List User) :=
  match users.find? (fun u => u.id == targetId) with
  | none => .error userNotFound
  | some u =>
    if u.isSystem && newRole.isSome then .error cannotChangeSystemRole
    else if newRole == some Role.MEMBER && u.role == Role.ADMIN then
      if adminCount users ≤ 1 then .error cannotDemoteLastAdmin
      else .ok (applyRole users targetId newRole)
    else .ok (applyRole users targetId newRole)

/-- `DELETE /auth/users/:id` (auth/routes.ts): self-deletion refused, 404 on
an unknown id, the system admin and the last remaining admin cannot be
deleted; otherwise the row is removed (sessions are purged best-effort,
which only shrinks the session store). -/
def deleteUser (users : List User) (actorId targetId : Nat) :
    Except HttpError (List User) :=
  if targetId == actorId then .error cannotDeleteSelf
  else
    match users.find? (fun u => u.id == targetId) with
    | none => .error userNotFound
    | some u =>
      if u.isSystem then .error cannotDeleteSystemAdmin
      else if u.role == Role.ADMIN && adminCount users ≤ 1 then
        .error cannotDeleteLastAdmin
      else .ok (users.filter fun v => v.id != targetId)

/-- `POST /auth/users` (auth/routes.ts): create a fresh member/admin with a
temporary password (`mustChangePassword: true`, `totpEnabled: false`). -/
def createUser (users : List User) (newId : Nat) (email name password : Str)
    (role : Role) : List User :=
  users ++ [{ id := newId, email := email, name := name, password := password,
              role := role, isSystem := false, totpEnabled := false,
              totpSecret := none, mustChangePassword := true }]

/-! ## The authorization gate and the client state machine
(`auth/middleware.ts`; `frontend/src/App.tsx`) -/

/-- `new HttpError(401, "Unauthorized")`. -/
def unauthorized : HttpError := ⟨401, "Unauthorized"⟩

/-- `new HttpError(403, "2FA setup required")`. -/
def twoFaSetupRequired : HttpError := ⟨403, "2FA setup required"⟩

/-- `requireLogin()` (auth/middleware.ts): the session must resolve to a
user row. -/
def requireLoginCheck (sessionUser : Option User) : Except HttpError User :=
  match sessionUser with
  | none => .error unauthorized
  | some u => .ok u

/-- `requireTwoFactor()` (auth/middleware.ts): the resolved user must have
TOTP enabled (else the setup error) and the session's `twoFactorPassed` flag
must be set. -/
def requireTwoFactorCheck (u : User) (twoFactorPassed : Bool) :
    Except HttpError Unit :=
  if !u.totpEnabled then .error twoFaSetupRequired
  else if !twoFactorPassed then .error twoFactorRequired
  else .ok ()

/-- `router.use(requireLogin(), requireTwoFactor())` (routes.ts line 24):
the middleware chain in front of every board and card endpoint. -/
def apiGate (sessionUser : Option User) (twoFactorPassed : Bool) :
    Except HttpError User :=
  match requireLoginCheck sessionUser with
  | .error e => .error e
  | .ok u =>
    match requireTwoFactorCheck u twoFactorPassed with
    | .error e => .error e
    | .ok _ => .ok u

/-- The top-level views of the frontend router (App.tsx lines 337-351). -/
inductive ClientView
  | loginView
  | changePasswordView
  | twoFaSetupView
  | twoFaVerifyView
  | boardView
  deriving DecidableEq, Repr

/-- The frontend view router (App.tsx lines 337-351): login, then forced
password change, then 2FA setup, then 2FA verify, then the board. -/
def clientRoute (user : Option User) (twoFactorPassed : Bool) : ClientView :=
  match user with
  | none => .loginView
  | some u =>
    if u.mustChangePassword then .changePasswordView
    else if !u.totpEnabled then .twoFaSetupView
    else if !twoFactorPassed then .twoFaVerifyView
    else .boardView

/-! ## Concrete fixtures used by the witnesses -/

/-- A bootstrap system admin. -/
def uSystem : User := { id := 1, email := [115, 64, 108], name := [115], password := [112], role := .ADMIN, isSystem := true, totpEnabled := false, totpSecret := none, mustChangePassword := false }

/-- An ordinary member. -/
def uMember : User := { id := 3, email := [109, 64, 108], name := [109], password := [112], role := .MEMBER, isSystem := false, totpEnabled := false, totpSecret := none, mustChangePassword := false }

/-- A member with TOTP enabled (secret 111), email `[120, 64, 121]`. -/
def uTotp : User := { id := 1, email := [120, 64, 121], name := [110], password := [112], role := .MEMBER, isSystem := false, totpEnabled := true, totpSecret := some 111, mustChangePassword := false }

/-- A TOTP-enabled user still under a forced password change. -/
def uMust : User := { id := 1, email := [120], name := [110], password := [112], role := .MEMBER, isSystem := false, totpEnabled := true, totpSecret := some 7, mustChangePassword := true }

/-- Two users whose display names coincide case-insensitively. -/
def uNameA : User := { id := 1, email := [97, 64, 98], name := [110, 110], password := [112], role := .MEMBER, isSystem := false, totpEnabled := false, totpSecret := none, mustChangePassword := false }

/-- See `uNameA` (name `[78, 110]` lower-cases to `[110, 110]`). -/
def uNameB : User := { id := 2, email := [99, 64, 100], name := [78, 110], password := [112], role := .MEMBER, isSystem := false, totpEnabled := false, totpSecret := none, mustChangePassword := false }

/-- An auth database with one user, one live session, one trusted device
and one pending emailed reset token. -/
def dbC3 : AuthDb := { users := [uMust], sessions := [{ sid := 10, userId := 1 }], devices := [{ userId := 1, tokenHash := 77, expiresAt := 100 }], resetTokens := [{ rtid := 0, tokenHash := 5, userId := 1, expiresAt := 100, used := false }] }

end Kanban

namespace Kanban

/-! ## Sorting lemmas -/

/-- The comparison used by `orderBy: { position: "asc" }`. -/
def posLE (c d : Card) : Prop := c.position ≤ d.position

theorem insertByPos_perm (c : Card) (l : List Card) :
    (insertByPos c l).Perm (c :: l) := by
  induction l with
  | nil => simp [insertByPos]
  | cons d ds ih =>
    by_cases h : c.position ≤ d.position
    · simp [insertByPos, h]
    · simp only [insertByPos, if_neg h]
      exact (ih.cons d).trans (List.Perm.swap c d ds)

theorem mem_insertByPos {x c : Card} {l : List Card} :
    x ∈ insertByPos c l ↔ x = c ∨ x ∈ l := by
  rw [(insertByPos_perm c l).mem_iff, List.mem_cons]

theorem sortByPos_perm (l : List Card) : (sortByPos l).Perm l := by
  induction l with
  | nil => simp [sortByPos]
  | cons d ds ih =>
    exact (insertByPos_perm d (sortByPos ds)).trans (ih.cons d)

theorem insertByPos_sorted {c : Card} {l : List Card}
    (h : l.Sorted posLE) : (insertByPos c l).Sorted posLE := by
  induction l with
  | nil => simp [insertByPos, List.Sorted]
  | cons d ds ih =>
    rw [List.sorted_cons] at h
    by_cases hc : c.position ≤ d.position
    · simp only [insertByPos, if_pos hc]
      rw [List.sorted_cons]
      refine ⟨?_, List.sorted_cons.mpr h⟩
      intro x hx
      rcases List.mem_cons.mp hx with rfl | hx
      · exact hc
      · exact le_trans hc (h.1 x hx)
    · simp only [insertByPos, if_neg hc]
      rw [List.sorted_cons]
      refine ⟨?_, ih h.2⟩
      intro x hx
      rcases mem_insertByPos.mp hx with rfl | hx
      · exact Nat.le_of_lt (Nat.lt_of_not_le hc)
      · exact h.1 x hx

theorem sortByPos_sorted (l : List Card) : (sortByPos l).Sorted posLE := by
  induction l with
  | nil => simp [sortByPos, List.Sorted]
  | cons d ds ih => exact insertByPos_sorted ih

/-! ## Generic list lemmas -/

theorem le_foldr_max {l : List Nat} {a : Nat} (h : a ∈ l) :
    a ≤ l.foldr max 0 := by
  induction l with
  | nil => cases h
  | cons b t ih =>
    rcases List.mem_cons.mp h with rfl | h
    · exact Nat.le_max_left _ _
    · exact le_trans (ih h) (Nat.le_max_right _ _)

theorem foldr_max_mem {l : List Nat} (h : l ≠ []) : l.foldr max 0 ∈ l := by
  induction l with
  | nil => exact absurd rfl h
  | cons b t ih =>
    rcases eq_or_ne t [] with rfl | ht
    · simp
    · rcases Nat.le_total b (t.foldr max 0) with hb | hb
      · simp only [List.foldr_cons, Nat.max_eq_right hb]
        exact List.mem_cons_of_mem _ (ih ht)
      · simp only [List.foldr_cons, Nat.max_eq_left hb]
        exact List.mem_cons_self _ _

theorem map_indexOf_self {l : List Nat} (h : l.Nodup) :
    l.map (fun a => l.indexOf a) = List.range l.length := by
  induction l with
  | nil => simp
  | cons a t ih =>
    have ha : a ∉ t := (List.nodup_cons.mp h).1
    have ht : t.Nodup := (List.nodup_cons.mp h).2
    have hmap : t.map (fun x => (a :: t).indexOf x)
        = (t.map fun x => t.indexOf x).map Nat.succ := by
      rw [List.map_map]
      refine List.map_congr_left ?_
      intro x hx
      have hne : a ≠ x := fun hax => ha (hax ▸ hx)
      simp [List.indexOf_cons_ne _ hne]
    simp only [List.map_cons, List.indexOf_cons_self, List.length_cons,
      List.range_succ_eq_map, hmap, ih ht]

theorem insertAt_perm (i : Nat) (a : α) (l : List α) :
    (insertAt i a l).Perm (a :: l) := by
  unfold insertAt
  exact List.perm_middle.trans (by rw [List.take_append_drop])

theorem insertAt_length (i : Nat) (a : α) (l : List α) :
    (insertAt i a l).length = l.length + 1 :=
  (insertAt_perm i a l).length_eq

theorem insertAt_getElem (i : Nat) (a : α) (l : List α) (h : i ≤ l.length) :
    (insertAt i a l)[i]? = some a := by
  unfold insertAt
  have hlen : (l.take i).length = i := by
    simp [List.length_take, Nat.min_eq_left h]
  rw [List.getElem?_append_right (by omega), hlen]
  simp

theorem filter_mem_map_perm {α β : Type _} [DecidableEq β] {f : α → β}
    {s : List α} (hn : (s.map f).Nodup) {L : List β} (hL : L.Nodup)
    (hsub : ∀ a ∈ L, a ∈ s.map f) :
    ((s.filter fun c => decide (f c ∈ L)).map f).Perm L := by
  have hnd : ((s.filter fun c => decide (f c ∈ L)).map f).Nodup :=
    List.Nodup.sublist ((List.filter_sublist s).map f) hn
  refine (List.perm_ext_iff_of_nodup hnd hL).mpr ?_
  intro a
  constructor
  · rintro ha
    rcases List.mem_map.mp ha with ⟨c, hc, rfl⟩
    exact of_decide_eq_true (List.mem_filter.mp hc).2
  · intro ha
    rcases List.mem_map.mp (hsub a ha) with ⟨c, hc, rfl⟩
    exact List.mem_map.mpr ⟨c, List.mem_filter.mpr ⟨hc, decide_eq_true ha⟩, rfl⟩

theorem insertAt_indexOf_erase [DecidableEq α] {a : α} {l : List α}
    (h : a ∈ l) : insertAt (l.indexOf a) a (l.erase a) = l := by
  induction l with
  | nil => cases h
  | cons b t ih =>
    by_cases hb : b = a
    · subst hb
      simp [List.indexOf_cons_self, List.erase_cons_head, insertAt]
    · have hne : b ≠ a := hb
      have hat : a ∈ t := by
        rcases List.mem_cons.mp h with rfl | hat
        · exact absurd rfl hne
        · exact hat
      rw [List.indexOf_cons_ne _ hne, List.erase_cons_tail]
      · show insertAt ((t.indexOf a) + 1) a (b :: t.erase a) = b :: t
        simp only [insertAt, List.take_succ_cons, List.drop_succ_cons,
          List.cons_append]
        rw [show (t.erase a).take (t.indexOf a) ++ a :: (t.erase a).drop (t.indexOf a)
            = insertAt (t.indexOf a) a (t.erase a) from rfl, ih hat]
      · simp [hne]

/-! ## Column and ordering lemmas -/

theorem isInCol_iff {b : Nat} {col : ColumnId} {c : Card} :
    isInCol b col c = true ↔ c.boardId = b ∧ c.column = col := by
  simp [isInCol]

theorem mem_colCards {s : List Card} {b : Nat} {col : ColumnId} {c : Card} :
    c ∈ colCards s b col ↔ c ∈ s ∧ c.boardId = b ∧ c.column = col := by
  rw [colCards, List.mem_filter, isInCol_iff]

theorem eq_of_mem_of_id_eq {s : List Card} (hn : IdsNodup s) {c d : Card}
    (hc : c ∈ s) (hd : d ∈ s) (h : c.id = d.id) : c = d :=
  List.inj_on_of_nodup_map hn hc hd h

theorem colCards_ids_nodup {s : List Card} (hn : IdsNodup s)
    (b : Nat) (col : ColumnId) : ((colCards s b col).map (·.id)).Nodup :=
  List.Nodup.sublist ((List.filter_sublist s).map (·.id)) hn

theorem order_perm (s : List Card) (b : Nat) (col : ColumnId) :
    (order s b col).Perm ((colCards s b col).map (·.id)) := by
  unfold order
  exact (sortByPos_perm (colCards s b col)).map _

theorem order_nodup {s : List Card} (hn : IdsNodup s) (b : Nat)
    (col : ColumnId) : (order s b col).Nodup :=
  ((order_perm s b col).nodup_iff).mpr (colCards_ids_nodup hn b col)

theorem order_length (s : List Card) (b : Nat) (col : ColumnId) :
    (order s b col).length = (colCards s b col).length := by
  rw [order, List.length_map, (sortByPos_perm _).length_eq]

theorem mem_order {s : List Card} {b : Nat} {col : ColumnId} {a : Nat} :
    a ∈ order s b col ↔ ∃ c, c ∈ s ∧ c.id = a ∧ c.boardId = b ∧ c.column = col := by
  rw [(order_perm s b col).mem_iff]
  constructor
  · intro h
    rcases List.mem_map.mp h with ⟨c, hc, rfl⟩
    rcases mem_colCards.mp hc with ⟨h1, h2, h3⟩
    exact ⟨c, h1, rfl, h2, h3⟩
  · rintro ⟨c, h1, rfl, h2, h3⟩
    exact List.mem_map.mpr ⟨c, mem_colCards.mpr ⟨h1, h2, h3⟩, rfl⟩

theorem find?_card_eq {s : List Card} (hn : IdsNodup s) {card : Card}
    {b cid : Nat} (hmem : card ∈ s) (hid : card.id = cid)
    (hb : card.boardId = b) :
    s.find? (fun c => c.id == cid && c.boardId == b) = some card := by
  induction s with
  | nil => cases hmem
  | cons d t ih =>
    have hn' : (t.map (·.id)).Nodup ∧ d.id ∉ t.map (·.id) := by
      have h := hn
      rw [IdsNodup, List.map_cons, List.nodup_cons] at h
      exact ⟨h.2, h.1⟩
    rcases List.mem_cons.mp hmem with rfl | hmem'
    · simp [List.find?_cons, hid, hb]
    · have hdne : d.id ≠ cid := by
        intro hdc
        exact hn'.2 (List.mem_map.mpr ⟨card, hmem', (hid.trans hdc.symm)⟩)
      have : (d.id == cid && d.boardId == b) = false := by
        simp [hdne]
      rw [List.find?_cons, this]
      exact ih hn'.1 hmem'

/-- The central ordering lemma: if a batch of row updates gives the cards of
a partition the positions `L.indexOf ·.id` for a duplicate-free id list `L`
that enumerates exactly the partition's ids, then reading the partition back
ordered by position yields exactly `L`, and the stored positions are exactly
`{0, …, |L|-1}`. -/
theorem sortedColumn {xs : List Card} {L : List Nat} (hL : L.Nodup)
    (hperm : (xs.map (·.id)).Perm L)
    (hpos : ∀ c ∈ xs, c.position = L.indexOf c.id) :
    (sortByPos xs).map (·.id) = L ∧
      (xs.map (·.position)).Perm (List.range L.length) := by
  have hposperm : (xs.map (·.position)).Perm (List.range L.length) := by
    have h1 : xs.map (·.position) = (xs.map (·.id)).map (fun a => L.indexOf a) := by
      rw [List.map_map]
      exact List.map_congr_left hpos
    rw [h1, ← map_indexOf_self hL]
    exact hperm.map _
  refine ⟨?_, hposperm⟩
  set ss := sortByPos xs with hss_def
  have hss : ss.Perm xs := sortByPos_perm xs
  have hlen : ss.length = L.length := by
    rw [hss.length_eq, ← List.length_map xs (·.id), hperm.length_eq]
  have hssPos : (ss.map (·.position)).Perm (List.range L.length) :=
    (hss.map (·.position)).trans hposperm
  have hsorted : (ss.map (·.position)).Pairwise (· ≤ ·) :=
    List.pairwise_map.mpr (sortByPos_sorted xs)
  have hnodup : (ss.map (·.position)).Nodup :=
    hssPos.nodup_iff.mpr (List.nodup_range L.length)
  have hstrict : (ss.map (·.position)).Pairwise (· < ·) :=
    (hsorted.and hnodup).imp fun h => Nat.lt_of_le_of_ne h.1 h.2
  have hrangeStrict : (List.range L.length).Pairwise (· < ·) :=
    List.pairwise_lt_range L.length
  have hA : IsAntisymm Nat (· < ·) :=
    ⟨fun _ _ h h' => absurd h' (Nat.lt_asymm h)⟩
  have hposEq : ss.map (·.position) = List.range L.length :=
    @List.eq_of_perm_of_sorted Nat (· < ·) hA _ _ hssPos hstrict hrangeStrict
  refine List.ext_getElem (by simpa using hlen) ?_
  intro n h₁ h₂
  have hn' : n < ss.length := by simpa using h₁
  have hcmem : ss[n] ∈ xs := hss.mem_iff.mp (List.getElem_mem hn')
  have hcpos : ss[n].position = n := by
    have := congrArg (fun l => l[n]?) hposEq
    simp only [List.getElem?_map] at this
    rw [List.getElem?_eq_getElem hn', List.getElem?_eq_getElem (by simpa using h₂)] at this
    simpa using this
  have hidx : L.indexOf ss[n].id = n := by
    rw [← hpos ss[n] hcmem, hcpos]
  have hidmem : ss[n].id ∈ L :=
    hperm.mem_iff.mp (List.mem_map_of_mem (·.id) hcmem)
  have hlt : L.indexOf ss[n].id < L.length := List.indexOf_lt_length.mpr hidmem
  have hfin : (⟨n, h₂⟩ : Fin L.length) = ⟨L.indexOf ss[n].id, hlt⟩ := by
    apply Fin.ext
    simp [hidx]
  have hL' : L[n] = ss[n].id := by
    rw [← List.get_eq_getElem L ⟨n, h₂⟩, hfin]
    exact List.indexOf_get hlt
  simp only [List.getElem_map]
  exact hL'.symm

/-- The positions read back in `orderBy: { position: "asc" }` order from a
dense partition are exactly `0, 1, …, n-1` in order. -/
theorem sortByPos_positions_eq_range {xs : List Card} {n : Nat}
    (hperm : (xs.map (·.position)).Perm (List.range n)) :
    (sortByPos xs).map (·.position) = List.range n := by
  have hss : (sortByPos xs).Perm xs := sortByPos_perm xs
  have hssPos : ((sortByPos xs).map (·.position)).Perm (List.range n) :=
    (hss.map (·.position)).trans hperm
  have hsorted : ((sortByPos xs).map (·.position)).Pairwise (· ≤ ·) :=
    List.pairwise_map.mpr (sortByPos_sorted xs)
  have hnodup : ((sortByPos xs).map (·.position)).Nodup :=
    hssPos.nodup_iff.mpr (List.nodup_range n)
  have hstrict : ((sortByPos xs).map (·.position)).Pairwise (· < ·) :=
    (hsorted.and hnodup).imp fun h => Nat.lt_of_le_of_ne h.1 h.2
  have hA : IsAntisymm Nat (· < ·) :=
    ⟨fun _ _ h h' => absurd h' (Nat.lt_asymm h)⟩
  exact @List.eq_of_perm_of_sorted Nat (· < ·) hA _ _ hssPos hstrict
    (List.pairwise_lt_range n)

/-- In a duplicate-free table, a row whose id occurs among a partition's ids
lies in that partition. -/
theorem mem_cards_of_id_mem {s : List Card} (hn : IdsNodup s) {b : Nat}
    {col : ColumnId} {c : Card} (hc : c ∈ s)
    (h : c.id ∈ (colCards s b col).map (·.id)) : c ∈ colCards s b col := by
  rcases List.mem_map.mp h with ⟨d, hd, hdc⟩
  have hds : d ∈ s := (mem_colCards.mp hd).1
  have : d = c := eq_of_mem_of_id_eq hn hds hc hdc
  exact this ▸ hd

/-- In a dense partition the rank of a card's id in the ordered id list is
the card's stored position. -/
theorem indexOf_order_of_dense {s : List Card} {b : Nat} {col : ColumnId}
    (hn : IdsNodup s) (hd : Dense s b col) {c : Card}
    (hc : c ∈ colCards s b col) :
    (order s b col).indexOf c.id = c.position := by
  set xs := colCards s b col with hxs
  have hrange : (sortByPos xs).map (·.position)
      = List.range xs.length := sortByPos_positions_eq_range hd
  have hcss : c ∈ sortByPos xs := (sortByPos_perm xs).mem_iff.mpr hc
  rcases List.mem_iff_get.mp hcss with ⟨k, hk⟩
  have hkpos : c.position = k.val := by
    have := congrArg (fun l => l[k.val]?) hrange
    have hk1 : k.val < (sortByPos xs).length := k.isLt
    have hk2 : k.val < xs.length := by
      rw [← (sortByPos_perm xs).length_eq]; exact k.isLt
    simp only [List.getElem?_map] at this
    rw [List.getElem?_eq_getElem hk1,
      List.getElem?_eq_getElem (by simpa using hk2)] at this
    rw [← List.get_eq_getElem, hk] at this
    simpa using this
  have hnodup : (order s b col).Nodup := order_nodup hn b col
  have : (order s b col).indexOf ((order s b col).get ⟨k.val, by
      rw [order_length]
      rw [← (sortByPos_perm xs).length_eq]
      exact k.isLt⟩) = k.val :=
    List.get_indexOf hnodup _
  have hgetid : (order s b col).get ⟨k.val, by
      rw [order_length, ← (sortByPos_perm xs).length_eq]; exact k.isLt⟩ = c.id := by
    show (List.map (·.id) (sortByPos xs)).get _ = c.id
    rw [List.get_map]
    exact congrArg (·.id) hk
  rw [hgetid] at this
  rw [this, hkpos]

/-- `colCards` commutes with a row update that changes neither `boardId` nor
`column`. -/
theorem colCards_map {f : Card → Card}
    (hf : ∀ c, (f c).boardId = c.boardId ∧ (f c).column = c.column)
    (s : List Card) (b : Nat) (col : ColumnId) :
    colCards (s.map f) b col = (colCards s b col).map f := by
  unfold colCards
  rw [List.filter_map]
  congr 1
  apply List.filter_congr
  intro c _
  rcases hf c with ⟨h1, h2⟩
  simp [isInCol, Function.comp, h1, h2]

/-! ## Effects of the create and delete handlers -/

theorem freshId_not_mem (s : List Card) : freshId s ∉ s.map (·.id) := by
  intro h
  have := le_foldr_max h
  simp only [freshId] at this
  omega

theorem idsNodup_createCard {s : List Card} (hn : IdsNodup s)
    (b : Nat) (col : ColumnId) : IdsNodup (createCard s b col) := by
  unfold IdsNodup createCard
  rw [List.map_append]
  have h2 : List.map (·.id)
      [({ id := freshId s, boardId := b, column := col,
          position := nextPosition s b col, participants := [] } : Card)]
      = [freshId s] := rfl
  rw [h2, List.nodup_append, List.disjoint_singleton]
  exact ⟨hn, List.nodup_singleton _, freshId_not_mem s⟩

theorem colCards_createCard (s : List Card) (b : Nat) (col : ColumnId)
    (b' : Nat) (col' : ColumnId) :
    colCards (createCard s b col) b' col' =
      if b' = b ∧ col' = col then
        colCards s b' col' ++
          [{ id := freshId s, boardId := b, column := col,
             position := nextPosition s b col, participants := [] }]
      else colCards s b' col' := by
  unfold createCard colCards
  rw [List.filter_append]
  by_cases h : b' = b ∧ col' = col
  · rcases h with ⟨rfl, rfl⟩
    simp [isInCol]
  · rw [if_neg h]
    have : isInCol b' col'
        { id := freshId s, boardId := b, column := col,
          position := nextPosition s b col, participants := [] } = false := by
      rcases Decidable.not_and_iff_or_not.mp h with h1 | h1 <;> simp [isInCol] <;> tauto
    simp [this]

theorem dense_createCard {s : List Card} {b' : Nat} {col' : ColumnId}
    (hd : Dense s b' col') (b : Nat) (col : ColumnId) :
    Dense (createCard s b col) b' col' := by
  by_cases h : b' = b ∧ col' = col
  · rcases h with ⟨rfl, rfl⟩
    unfold Dense positionsOf at hd ⊢
    rw [colCards_createCard s b' col' b' col', if_pos ⟨rfl, rfl⟩]
    set ps := (colCards s b' col').map (·.position) with hps
    have hlen : ps.length = (colCards s b' col').length := List.length_map _ _
    rw [List.map_append, List.length_append]
    simp only [List.map_cons, List.map_nil, List.length_cons, List.length_nil]
    have hnext : nextPosition s b' col' = (colCards s b' col').length := by
      unfold nextPosition positionsOf
      rcases eq_or_ne (colCards s b' col') [] with he | he
      · simp [he]
      · have hne : ¬((colCards s b' col').map (·.position)).isEmpty := by
          simp [List.isEmpty_iff, he]
        rw [if_neg hne]
        set n := (colCards s b' col').length with hn
        have hpos : 0 < n := by
          rw [hn, List.length_pos]; exact he
        have hmax : ((colCards s b' col').map (·.position)).foldr max 0 = n - 1 := by
          apply Nat.le_antisymm
          · have hmem := foldr_max_mem (l := (colCards s b' col').map (·.position))
              (by simp [he])
            have := hd.mem_iff.mp hmem
            rw [List.mem_range] at this
            omega
          · have : n - 1 ∈ (colCards s b' col').map (·.position) :=
              hd.mem_iff.mpr (List.mem_range.mpr (by omega))
            exact le_foldr_max this
        omega
    rw [hnext, ← hlen]
    have : List.range (ps.length + 1) = List.range ps.length ++ [ps.length] :=
      List.range_succ ps.length
    rw [this, ← hps, hlen]
    exact (hd.append (List.Perm.refl _))
  · unfold Dense positionsOf
    rw [colCards_createCard s b col b' col', if_neg h]
    exact hd

theorem deleteCard_ok {s : List Card} {b cid : Nat} {s' : List Card}
    (h : deleteCard s b cid = .ok s') :
    s' = s.filter (fun c => c.id != cid) := by
  unfold deleteCard at h
  cases hf : s.find? (fun c => c.id == cid && c.boardId == b) with
  | none => rw [hf] at h; cases h
  | some c => rw [hf] at h; cases h; rfl

/-! ## Effects of the move handler -/

theorem setPositions_id_map (ids : List Nat) (s : List Card) :
    (setPositions ids s).map (·.id) = s.map (·.id) := by
  unfold setPositions
  rw [List.map_map]
  apply List.map_congr_left
  intro c _
  by_cases h : c.id ∈ ids <;> simp [h]

theorem applyCross_id_map (newFrom newTo : List Nat) (cid : Nat)
    (Y : ColumnId) (s : List Card) :
    (applyCross newFrom newTo cid Y s).map (·.id) = s.map (·.id) := by
  unfold applyCross
  rw [List.map_map]
  apply List.map_congr_left
  intro c _
  by_cases h1 : c.id ∈ newFrom
  · simp [h1]
  · by_cases h2 : c.id ∈ newTo <;> simp [h1, h2]

/-- Specification of the same-column branch of `POST /cards/:id/move`: the
column is rewritten to the spliced id list with dense positions, no other
partition changes, and no notification is dispatched. -/
theorem moveCard_same {s : List Card} (hn : IdsNodup s) (card : Card)
    (b actorId cid toIndex : Nat)
    (hc : card ∈ s) (hid : card.id = cid) (hb : card.boardId = b) :
    ∃ s',
      moveCard s b actorId cid card.column toIndex = .ok (s', none) ∧
      s' = setPositions
        (insertAt (min toIndex ((order s b card.column).erase cid).length) cid
          ((order s b card.column).erase cid)) s ∧
      order s' b card.column =
        insertAt (min toIndex ((order s b card.column).erase cid).length) cid
          ((order s b card.column).erase cid) ∧
      (positionsOf s' b card.column).Perm
        (List.range (colCards s b card.column).length) ∧
      (∀ b' col', ¬(b' = b ∧ col' = card.column) →
        colCards s' b' col' = colCards s b' col') ∧
      IdsNodup s' := by
  have hfind : s.find? (fun c => c.id == cid && c.boardId == b) = some card :=
    find?_card_eq hn hc hid hb
  have hcidX : cid ∈ order s b card.column :=
    mem_order.mpr ⟨card, hc, hid, hb, rfl⟩
  set ids := (order s b card.column).erase cid with hids
  set idx := clamp toIndex 0 ids.length with hidxdef
  have hidxeq : idx = min toIndex ids.length := by
    rw [hidxdef, clamp]; omega
  set ids2 := insertAt idx cid ids with hids2
  have hperm2 : ids2.Perm (order s b card.column) := by
    rw [hids2, hids]
    exact (insertAt_perm idx cid _).trans (List.perm_cons_erase hcidX).symm
  have hnodup2 : ids2.Nodup := hperm2.nodup_iff.mpr (order_nodup hn b card.column)
  have hmem2 : ∀ a, a ∈ ids2 ↔ a ∈ order s b card.column := fun a => hperm2.mem_iff
  have hfpres : ∀ c : Card,
      ((fun c => if c.id ∈ ids2 then { c with position := ids2.indexOf c.id }
        else c) c).boardId = c.boardId ∧
      ((fun c => if c.id ∈ ids2 then { c with position := ids2.indexOf c.id }
        else c) c).column = c.column := by
    intro c
    by_cases h : c.id ∈ ids2 <;> simp [h]
  have hcols : ∀ b' col', colCards (setPositions ids2 s) b' col'
      = (colCards s b' col').map
        (fun c => if c.id ∈ ids2 then { c with position := ids2.indexOf c.id }
          else c) := by
    intro b' col'
    unfold setPositions
    exact colCards_map hfpres s b' col'
  have hxs : colCards (setPositions ids2 s) b card.column
      = (colCards s b card.column).map
        (fun c => { c with position := ids2.indexOf c.id }) := by
    rw [hcols b card.column]
    apply List.map_congr_left
    intro c hcmem
    have : c.id ∈ ids2 := (hmem2 c.id).mpr
      ((order_perm s b card.column).mem_iff.mpr (List.mem_map_of_mem _ hcmem))
    rw [if_pos this]
  have hidmap : ((colCards s b card.column).map
      (fun c => { c with position := ids2.indexOf c.id })).map (·.id)
      = (colCards s b card.column).map (·.id) := by
    rw [List.map_map]; rfl
  have hpermX : (((colCards s b card.column).map
      (fun c => { c with position := ids2.indexOf c.id })).map (·.id)).Perm ids2 := by
    rw [hidmap]
    exact (order_perm s b card.column).symm.trans hperm2.symm
  have hposX : ∀ c ∈ (colCards s b card.column).map
      (fun c => { c with position := ids2.indexOf c.id }),
      c.position = ids2.indexOf c.id := by
    intro c hcmem
    rcases List.mem_map.mp hcmem with ⟨d, _, rfl⟩
    rfl
  have hsc := sortedColumn hnodup2 hpermX hposX
  have hlen2 : ids2.length = (colCards s b card.column).length := by
    rw [hperm2.length_eq, order_length]
  have hord : order (setPositions ids2 s) b card.column = ids2 := by
    unfold order
    rw [hxs, hsc.1]
  have hdens : (positionsOf (setPositions ids2 s) b card.column).Perm
      (List.range (colCards s b card.column).length) := by
    rw [positionsOf, hxs, ← hlen2]
    exact hsc.2
  have hother : ∀ b' col', ¬(b' = b ∧ col' = card.column) →
      colCards (setPositions ids2 s) b' col' = colCards s b' col' := by
    intro b' col' hne
    rw [hcols b' col']
    have hfix : ∀ c ∈ colCards s b' col',
        (if c.id ∈ ids2 then { c with position := ids2.indexOf c.id } else c) = c := by
      intro c hcmem
      rw [if_neg]
      intro hin
      rcases mem_order.mp ((hmem2 c.id).mp hin) with ⟨d, hd, hdid, hdb, hdX⟩
      have hdc : d = c :=
        eq_of_mem_of_id_eq hn hd (mem_colCards.mp hcmem).1 hdid
      rcases mem_colCards.mp hcmem with ⟨_, hcb, hccol⟩
      exact hne ⟨by rw [← hcb, ← hdc, hdb], by rw [← hccol, ← hdc, hdX]⟩
    rw [List.map_congr_left hfix]
    simp
  have hnodup' : IdsNodup (setPositions ids2 s) := by
    unfold IdsNodup
    rw [setPositions_id_map]
    exact hn
  have hcomp : moveCard s b actorId cid card.column toIndex
      = .ok (setPositions ids2 s, none) := by
    unfold moveCard
    rw [hfind]
    simp only [if_pos rfl]
    rw [← hids, ← hidxdef, ← hids2]
    simp
  refine ⟨setPositions ids2 s, hcomp, by rw [hids2, hidxeq], ?_, hdens, hother, hnodup'⟩
  rw [hord, hids2, hidxeq]

/-- Specification of the cross-column branch of `POST /cards/:id/move`:
the source column closes its gap keeping its order, the destination column
receives the card at the clamped index with dense positions, the moved
card's `column` field is updated, no other partition changes, and the
`"moved"` notification is dispatched to the card's participants minus the
actor. -/
theorem moveCard_cross {s : List Card} (hn : IdsNodup s) (card : Card)
    (b actorId cid toIndex : Nat) (Y : ColumnId)
    (hc : card ∈ s) (hid : card.id = cid) (hb : card.boardId = b)
    (hXY : card.column ≠ Y) :
    ∃ s',
      moveCard s b actorId cid Y toIndex =
        .ok (s', some { cardId := cid, fromColumn := card.column, toColumn := Y,
                        recipients := card.participants.filter
                          (fun uid => uid != actorId) }) ∧
      order s' b card.column = (order s b card.column).erase cid ∧
      (positionsOf s' b card.column).Perm
        (List.range ((colCards s b card.column).length - 1)) ∧
      order s' b Y = insertAt (min toIndex (colCards s b Y).length) cid
        (order s b Y) ∧
      (positionsOf s' b Y).Perm (List.range ((colCards s b Y).length + 1)) ∧
      (∀ c ∈ s', c.id = cid → c.column = Y) ∧
      (∀ b' col', ¬(b' = b ∧ col' = card.column) → ¬(b' = b ∧ col' = Y) →
        colCards s' b' col' = colCards s b' col') ∧
      IdsNodup s' := by
  have hfind : s.find? (fun c => c.id == cid && c.boardId == b) = some card :=
    find?_card_eq hn hc hid hb
  have hcidX : cid ∈ order s b card.column :=
    mem_order.mpr ⟨card, hc, hid, hb, rfl⟩
  have hcidY : cid ∉ order s b Y := by
    intro hmem
    rcases mem_order.mp hmem with ⟨d, hd, hdid, _, hdcol⟩
    have hdc : d = card := eq_of_mem_of_id_eq hn hd hc (hdid.trans hid.symm)
    exact hXY (hdc ▸ hdcol)
  set newFrom := (order s b card.column).erase cid with hNF
  set newTo0 := (order s b Y).erase cid with hNT0
  have hNT0eq : newTo0 = order s b Y := by
    rw [hNT0]; exact List.erase_of_not_mem hcidY
  set idx := clamp toIndex 0 newTo0.length with hidxdef
  have hidxeq : idx = min toIndex (colCards s b Y).length := by
    rw [hidxdef, clamp, hNT0eq, order_length]
    omega
  set newTo := insertAt idx cid newTo0 with hNT
  have hFnodup : newFrom.Nodup :=
    List.Nodup.erase cid (order_nodup hn b card.column)
  have hTperm : newTo.Perm (cid :: order s b Y) := by
    rw [hNT, hNT0eq]
    exact insertAt_perm idx cid _
  have hTnodup : newTo.Nodup :=
    hTperm.nodup_iff.mpr (List.nodup_cons.mpr ⟨hcidY, order_nodup hn b Y⟩)
  have hFmem : ∀ a, a ∈ newFrom ↔ a ∈ order s b card.column ∧ a ≠ cid := by
    intro a
    rw [hNF, List.Nodup.mem_erase_iff (order_nodup hn b card.column)]
    tauto
  have hTmem : ∀ a, a ∈ newTo ↔ a = cid ∨ a ∈ order s b Y := by
    intro a
    rw [hTperm.mem_iff, List.mem_cons]
  have hidcard : ∀ c ∈ s, c.id = cid → c = card := fun c hcs hcid =>
    eq_of_mem_of_id_eq hn hcs hc (hcid.trans hid.symm)
  have hmemX : ∀ c ∈ s, c.id ∈ order s b card.column →
      c ∈ colCards s b card.column := fun c hcs hmem =>
    mem_cards_of_id_mem hn hcs ((order_perm s b card.column).mem_iff.mp hmem)
  have hmemY : ∀ c ∈ s, c.id ∈ order s b Y → c ∈ colCards s b Y :=
    fun c hcs hmem =>
      mem_cards_of_id_mem hn hcs ((order_perm s b Y).mem_iff.mp hmem)
  have hdisj : ∀ a, a ∈ newTo → a ∉ newFrom := by
    intro a haT haF
    rcases (hFmem a).mp haF with ⟨haX, hane⟩
    rcases (hTmem a).mp haT with rfl | haY
    · exact hane rfl
    · rcases mem_order.mp haX with ⟨d, hd, hdid, _, hdX⟩
      rcases mem_order.mp haY with ⟨e, he, heid, _, heY⟩
      have hde : d = e := eq_of_mem_of_id_eq hn hd he (hdid.trans heid.symm)
      rw [hde, heY] at hdX
      exact hXY hdX.symm
  -- the source column after the transaction
  have hXrows : colCards (applyCross newFrom newTo cid Y s) b card.column
      = ((colCards s b card.column).filter (fun c => c.id != cid)).map
        (fun c => { c with position := newFrom.indexOf c.id }) := by
    unfold applyCross colCards
    rw [List.filter_map]
    have hpt : ∀ c ∈ s,
        ((isInCol b card.column) ∘ fun c : Card =>
          if c.id ∈ newFrom then { c with position := newFrom.indexOf c.id }
          else if c.id ∈ newTo then
            { c with position := newTo.indexOf c.id,
                     column := if c.id = cid then Y else c.column }
          else c) c
        = (isInCol b card.column c && (c.id != cid)) := by
      intro c hcs
      by_cases h1 : c.id ∈ newFrom
      · rcases (hFmem c.id).mp h1 with ⟨_, hne⟩
        simp [Function.comp, if_pos h1, isInCol, hne]
      · by_cases h2 : c.id ∈ newTo
        · by_cases h3 : c.id = cid
          · simp only [Function.comp_apply]
            rw [if_neg h1, if_pos h2, if_pos h3]
            simp [isInCol, h3, Ne.symm hXY]
          · have hcY : c ∈ colCards s b Y := by
              rcases (hTmem c.id).mp h2 with h | h
              · exact absurd h h3
              · exact hmemY c hcs h
            have hccol : c.column = Y := (mem_colCards.mp hcY).2.2
            simp only [Function.comp_apply]
            rw [if_neg h1, if_pos h2, if_neg h3]
            simp [isInCol, hccol, Ne.symm hXY]
        · have hne : c.id ≠ cid := fun h => h2 ((hTmem c.id).mpr (Or.inl h))
          simp only [Function.comp_apply]
          rw [if_neg h1, if_neg h2]
          simp [isInCol, hne]
    rw [List.filter_congr hpt]
    have hff : s.filter (fun c => isInCol b card.column c && (c.id != cid))
        = (s.filter (isInCol b card.column)).filter (fun c => c.id != cid) := by
      rw [List.filter_filter]
      apply List.filter_congr
      intro c _
      rw [Bool.and_comm]
    rw [hff]
    apply List.map_congr_left
    intro c hcmem
    have h1 : c.id ∈ newFrom := by
      rcases List.mem_filter.mp hcmem with ⟨hcX, hne⟩
      refine (hFmem c.id).mpr ⟨?_, by simpa using hne⟩
      exact (order_perm s b card.column).mem_iff.mpr
        (List.mem_map_of_mem _ hcX)
    rw [if_pos h1]
  -- the destination column after the transaction
  have hYrows : colCards (applyCross newFrom newTo cid Y s) b Y
      = (s.filter (fun c => decide (c.id ∈ newTo))).map
        (fun c => { c with position := newTo.indexOf c.id,
                           column := if c.id = cid then Y else c.column }) := by
    unfold applyCross colCards
    rw [List.filter_map]
    have hpt : ∀ c ∈ s,
        ((isInCol b Y) ∘ fun c : Card =>
          if c.id ∈ newFrom then { c with position := newFrom.indexOf c.id }
          else if c.id ∈ newTo then
            { c with position := newTo.indexOf c.id,
                     column := if c.id = cid then Y else c.column }
          else c) c
        = decide (c.id ∈ newTo) := by
      intro c hcs
      by_cases h1 : c.id ∈ newFrom
      · rcases (hFmem c.id).mp h1 with ⟨hX, _⟩
        have hccol : c.column = card.column :=
          (mem_colCards.mp (hmemX c hcs hX)).2.2
        have hnT : c.id ∉ newTo := fun h => hdisj c.id h h1
        simp [Function.comp, if_pos h1, isInCol, hccol, hXY, hnT]
      · by_cases h2 : c.id ∈ newTo
        · by_cases h3 : c.id = cid
          · have hcc : c = card := hidcard c hcs h3
            have hcb : c.boardId = b := by rw [hcc]; exact hb
            simp [Function.comp, if_neg h1, if_pos h2, if_pos h3, isInCol,
              hcb, h2]
          · have hcY : c ∈ colCards s b Y := by
              rcases (hTmem c.id).mp h2 with h | h
              · exact absurd h h3
              · exact hmemY c hcs h
            have hccol : c.column = Y := (mem_colCards.mp hcY).2.2
            have hcb : c.boardId = b := (mem_colCards.mp hcY).2.1
            simp [Function.comp, if_neg h1, if_pos h2, if_neg h3, isInCol,
              hccol, hcb, h2]
        · have hiY : isInCol b Y c = false := by
            cases hcase : isInCol b Y c with
            | false => rfl
            | true =>
              exfalso
              have hcmem : c ∈ colCards s b Y := List.mem_filter.mpr ⟨hcs, hcase⟩
              exact h2 ((hTmem c.id).mpr (Or.inr
                ((order_perm s b Y).mem_iff.mpr (List.mem_map_of_mem _ hcmem))))
          simp [Function.comp, if_neg h1, if_neg h2, hiY, h2]
    rw [List.filter_congr hpt]
    apply List.map_congr_left
    intro c hcmem
    have h2 : c.id ∈ newTo := of_decide_eq_true (List.mem_filter.mp hcmem).2
    rw [if_neg (fun h1 => hdisj c.id h2 h1), if_pos h2]
  -- untouched partitions
  have hOther : ∀ b' col', ¬(b' = b ∧ col' = card.column) →
      ¬(b' = b ∧ col' = Y) →
      colCards (applyCross newFrom newTo cid Y s) b' col'
        = colCards s b' col' := by
    intro b' col' hno1 hno2
    unfold applyCross colCards
    rw [List.filter_map]
    have hpt : ∀ c ∈ s,
        ((isInCol b' col') ∘ fun c : Card =>
          if c.id ∈ newFrom then { c with position := newFrom.indexOf c.id }
          else if c.id ∈ newTo then
            { c with position := newTo.indexOf c.id,
                     column := if c.id = cid then Y else c.column }
          else c) c
        = isInCol b' col' c := by
      intro c hcs
      by_cases h1 : c.id ∈ newFrom
      · simp [Function.comp, if_pos h1, isInCol]
      · by_cases h2 : c.id ∈ newTo
        · by_cases h3 : c.id = cid
          · have hcc : c = card := hidcard c hcs h3
            have hcb : c.boardId = b := by rw [hcc]; exact hb
            have hccol : c.column = card.column := by rw [hcc]
            have hL : (isInCol b' col'
                { c with position := newTo.indexOf c.id,
                         column := if c.id = cid then Y else c.column }) = false := by
              rw [if_pos h3]
              cases hcase : isInCol b' col'
                  ({ c with position := newTo.indexOf c.id, column := Y }) with
              | false => rfl
              | true =>
                exfalso
                rcases isInCol_iff.mp hcase with ⟨hb', hcol'⟩
                exact hno2 ⟨by rw [← hb', hcb], hcol'.symm⟩
            have hR : isInCol b' col' c = false := by
              cases hcase : isInCol b' col' c with
              | false => rfl
              | true =>
                exfalso
                rcases isInCol_iff.mp hcase with ⟨hb', hcol'⟩
                exact hno1 ⟨by rw [← hb', hcb], by rw [← hcol', hccol]⟩
            simp [Function.comp, if_neg h1, if_pos h2, hL, hR]
          · simp [Function.comp, if_neg h1, if_pos h2, if_neg h3, isInCol]
        · simp [Function.comp, if_neg h1, if_neg h2]
    rw [List.filter_congr hpt]
    conv_rhs => rw [← List.map_id (List.filter (isInCol b' col') s)]
    apply List.map_congr_left
    intro c hcmem
    rcases mem_colCards.mp (show c ∈ colCards s b' col' from hcmem) with
      ⟨hcs, hcb, hccol⟩
    have h1 : c.id ∉ newFrom := by
      intro h1
      rcases (hFmem c.id).mp h1 with ⟨hX, _⟩
      have := (mem_colCards.mp (hmemX c hcs hX)).2
      exact hno1 ⟨by rw [← hcb, this.1], by rw [← hccol, this.2]⟩
    have h2 : c.id ∉ newTo := by
      intro h2
      rcases (hTmem c.id).mp h2 with h3 | h3
      · have hcc : c = card := hidcard c hcs h3
        exact hno1 ⟨by rw [← hcb, hcc, hb], by rw [← hccol, hcc]⟩
      · have := (mem_colCards.mp (hmemY c hcs h3)).2
        exact hno2 ⟨by rw [← hcb, this.1], by rw [← hccol, this.2]⟩
    rw [if_neg h1, if_neg h2]
    rfl
  -- ordering and density of the source column
  have hidmapX : (((colCards s b card.column).filter (fun c => c.id != cid)).map
      (fun c => { c with position := newFrom.indexOf c.id })).map (·.id)
      = ((colCards s b card.column).map (·.id)).filter (fun a => a != cid) := by
    rw [List.map_map, List.filter_map]
    rfl
  have hpermXX : ((((colCards s b card.column).filter
      (fun c => c.id != cid)).map
      (fun c => { c with position := newFrom.indexOf c.id })).map (·.id)).Perm
      newFrom := by
    rw [hidmapX,
      ← List.Nodup.erase_eq_filter (colCards_ids_nodup hn b card.column) cid,
      hNF]
    exact ((order_perm s b card.column).erase cid).symm
  have hposXX : ∀ c ∈ ((colCards s b card.column).filter
      (fun c => c.id != cid)).map
      (fun c => { c with position := newFrom.indexOf c.id }),
      c.position = newFrom.indexOf c.id := by
    intro c hcmem
    rcases List.mem_map.mp hcmem with ⟨d, _, rfl⟩
    rfl
  have hscX := sortedColumn hFnodup hpermXX hposXX
  have hlenF : newFrom.length = (colCards s b card.column).length - 1 := by
    rw [hNF, List.length_erase_of_mem hcidX, order_length]
  -- ordering and density of the destination column
  have hidmapY : ((s.filter (fun c => decide (c.id ∈ newTo))).map
      (fun c => { c with position := newTo.indexOf c.id,
                         column := if c.id = cid then Y else c.column })).map (·.id)
      = (s.filter (fun c => decide (c.id ∈ newTo))).map (·.id) := by
    rw [List.map_map]
    rfl
  have hsubT : ∀ a ∈ newTo, a ∈ s.map (·.id) := by
    intro a haT
    rcases (hTmem a).mp haT with rfl | haY
    · exact List.mem_map.mpr ⟨card, hc, hid⟩
    · rcases mem_order.mp haY with ⟨d, hd, hdid, _, _⟩
      exact List.mem_map.mpr ⟨d, hd, hdid⟩
  have hpermYY : (((s.filter (fun c => decide (c.id ∈ newTo))).map
      (fun c => { c with position := newTo.indexOf c.id,
                         column := if c.id = cid then Y else c.column })).map
      (·.id)).Perm newTo := by
    rw [hidmapY]
    exact filter_mem_map_perm hn hTnodup hsubT
  have hposYY : ∀ c ∈ (s.filter (fun c => decide (c.id ∈ newTo))).map
      (fun c => { c with position := newTo.indexOf c.id,
                         column := if c.id = cid then Y else c.column }),
      c.position = newTo.indexOf c.id := by
    intro c hcmem
    rcases List.mem_map.mp hcmem with ⟨d, _, rfl⟩
    rfl
  have hscY := sortedColumn hTnodup hpermYY hposYY
  have hlenT : newTo.length = (colCards s b Y).length + 1 := by
    rw [hNT, insertAt_length, hNT0eq, order_length]
  -- the moved card's column field
  have hmoved : ∀ c ∈ applyCross newFrom newTo cid Y s,
      c.id = cid → c.column = Y := by
    intro c hcmem hcid
    unfold applyCross at hcmem
    rcases List.mem_map.mp hcmem with ⟨d, hd, rfl⟩
    by_cases h1 : d.id ∈ newFrom
    · rw [if_pos h1] at hcid ⊢
      exact absurd hcid ((hFmem d.id).mp h1).2
    · by_cases h2 : d.id ∈ newTo
      · rw [if_neg h1, if_pos h2] at hcid ⊢
        have hdid : d.id = cid := hcid
        simp [hdid]
      · rw [if_neg h1, if_neg h2] at hcid ⊢
        exact absurd ((hTmem d.id).mpr (Or.inl hcid)) h2
  have hnodup' : IdsNodup (applyCross newFrom newTo cid Y s) := by
    unfold IdsNodup
    rw [applyCross_id_map]
    exact hn
  have hcomp : moveCard s b actorId cid Y toIndex =
      .ok (applyCross newFrom newTo cid Y s,
        some { cardId := cid, fromColumn := card.column, toColumn := Y,
               recipients := card.participants.filter
                 (fun uid => uid != actorId) }) := by
    unfold moveCard
    rw [hfind]
    simp only [if_neg hXY]
  refine ⟨applyCross newFrom newTo cid Y s, hcomp, ?_, ?_, ?_, ?_, hmoved,
    hOther, hnodup'⟩
  · unfold order
    rw [hXrows, hscX.1]
  · rw [positionsOf, hXrows, ← hlenF]
    exact hscX.2
  · unfold order
    rw [hYrows, hscY.1, hNT, hidxeq, hNT0eq]
    rfl
  · rw [positionsOf, hYrows, ← hlenT]
    exact hscY.2

/-- A permutation with `range n` forces the partition's density. -/
theorem dense_of_perm_range {s' : List Card} {b : Nat} {col : ColumnId}
    {n : Nat} (h : (positionsOf s' b col).Perm (List.range n)) :
    Dense s' b col := by
  unfold Dense
  have hlen : (colCards s' b col).length = n := by
    have h2 := h.length_eq
    simpa [positionsOf] using h2
  rw [hlen]
  exact h

theorem moveCard_err {s : List Card} {b actorId cid : Nat}
    {toCol : ColumnId} {toIndex : Nat}
    (h : s.find? (fun c => c.id == cid && c.boardId == b) = none) :
    moveCard s b actorId cid toCol toIndex = .error cardNotFound := by
  unfold moveCard
  rw [h]

theorem moveCard_ok_find {s : List Card} {b actorId cid : Nat}
    {toCol : ColumnId} {toIndex : Nat}
    {out : List Card × Option MoveEvent}
    (h : moveCard s b actorId cid toCol toIndex = .ok out) :
    ∃ card, s.find? (fun c => c.id == cid && c.boardId == b) = some card ∧
      card ∈ s ∧ card.id = cid ∧ card.boardId = b := by
  cases hf : s.find? (fun c => c.id == cid && c.boardId == b) with
  | none => rw [moveCard_err hf] at h; cases h
  | some card =>
    have hmem := List.mem_of_find?_eq_some hf
    have hp := List.find?_some hf
    simp only [Bool.and_eq_true, beq_iff_eq] at hp
    exact ⟨card, rfl, hmem, hp.1, hp.2⟩

/-- Every create and every move (successful or rejected) preserves both the
primary-key uniqueness and the density of every partition. -/
theorem applyCardOp_good {s : List Card} (hn : IdsNodup s)
    (hd : ∀ b col, Dense s b col) (op : CardOp) :
    IdsNodup (applyCardOp op s) ∧ ∀ b col, Dense (applyCardOp op s) b col := by
  cases op with
  | create b col =>
    exact ⟨idsNodup_createCard hn b col,
      fun b' col' => dense_createCard (hd b' col') b col⟩
  | move b actorId cid toCol toIndex =>
    cases hmv : moveCard s b actorId cid toCol toIndex with
    | error e =>
      simp only [applyCardOp, hmv]
      exact ⟨hn, hd⟩
    | ok out =>
      obtain ⟨s0, ev⟩ := out
      simp only [applyCardOp, hmv]
      rcases moveCard_ok_find hmv with ⟨card, hfind, hcmem, hcid, hcb⟩
      by_cases hcol : card.column = toCol
      · subst hcol
        rcases moveCard_same hn card b actorId cid toIndex hcmem hcid hcb with
          ⟨s', hcomp, _, _, hdens, hother, hnodup'⟩
        rw [hcomp] at hmv
        injection hmv with hmv2
        injection hmv2 with h1 h2
        subst h1
        refine ⟨hnodup', ?_⟩
        intro b' col'
        by_cases hpart : b' = b ∧ col' = card.column
        · rcases hpart with ⟨rfl, rfl⟩
          exact dense_of_perm_range hdens
        · unfold Dense positionsOf
          rw [hother b' col' hpart]
          exact hd b' col'
      · rcases moveCard_cross hn card b actorId cid toIndex toCol hcmem hcid
          hcb hcol with
          ⟨s', hcomp, _, hdX, _, hdY, _, hother, hnodup'⟩
        rw [hcomp] at hmv
        injection hmv with hmv2
        injection hmv2 with h1 h2
        subst h1
        refine ⟨hnodup', ?_⟩
        intro b' col'
        by_cases hpartX : b' = b ∧ col' = card.column
        · rcases hpartX with ⟨rfl, rfl⟩
          exact dense_of_perm_range hdX
        · by_cases hpartY : b' = b ∧ col' = toCol
          · rcases hpartY with ⟨rfl, rfl⟩
            exact dense_of_perm_range hdY
          · unfold Dense positionsOf
            rw [hother b' col' hpartX hpartY]
            exact hd b' col'

theorem runCardOps_good {s : List Card} (hn : IdsNodup s)
    (hd : ∀ b col, Dense s b col) (ops : List CardOp) :
    IdsNodup (runCardOps ops s) ∧ ∀ b col, Dense (runCardOps ops s) b col := by
  induction ops generalizing s with
  | nil => exact ⟨hn, hd⟩
  | cons op rest ih =>
    have h1 := applyCardOp_good hn hd op
    exact ih h1.1 h1.2

/-! ## User-table lemmas -/

theorem eq_of_mem_users {users : List User} (hn : (users.map (·.id)).Nodup)
    {u v : User} (hu : u ∈ users) (hv : v ∈ users) (h : u.id = v.id) : u = v :=
  List.inj_on_of_nodup_map hn hu hv h

theorem find?_user_eq {users : List User} (hn : (users.map (·.id)).Nodup)
    {target : User} {targetId : Nat} (hmem : target ∈ users)
    (hid : target.id = targetId) :
    users.find? (fun u => u.id == targetId) = some target := by
  induction users with
  | nil => cases hmem
  | cons d t ih =>
    have hn' : (t.map (·.id)).Nodup ∧ d.id ∉ t.map (·.id) := by
      have h := hn
      rw [List.map_cons, List.nodup_cons] at h
      exact ⟨h.2, h.1⟩
    rcases List.mem_cons.mp hmem with rfl | hmem'
    · simp [List.find?_cons, hid]
    · have hdne : d.id ≠ targetId := by
        intro hdc
        exact hn'.2 (List.mem_map.mpr ⟨target, hmem', hid.trans hdc.symm⟩)
      have hpf : (d.id == targetId) = false := by simp [hdne]
      rw [List.find?_cons, hpf]
      exact ih hn'.1 hmem'

theorem one_le_adminCount_of_mem {users : List User} {u : User}
    (hu : u ∈ users) (hrole : u.role = Role.ADMIN) : 1 ≤ adminCount users := by
  unfold adminCount
  have : u ∈ users.filter (fun v => v.role == Role.ADMIN) :=
    List.mem_filter.mpr ⟨hu, by simp [hrole]⟩
  calc 1 ≤ 1 := le_refl 1
    _ ≤ (users.filter (fun v => v.role == Role.ADMIN)).length :=
      List.length_pos.mpr (List.ne_nil_of_mem this)

theorem exists_other_admin {users : List User} (hn : (users.map (·.id)).Nodup)
    (h2 : 2 ≤ adminCount users) (targetId : Nat) :
    ∃ v ∈ users, v.role = Role.ADMIN ∧ v.id ≠ targetId := by
  unfold adminCount at h2
  match hmatch : users.filter (fun v => v.role == Role.ADMIN) with
  | [] => rw [hmatch] at h2; simp at h2
  | [a] => rw [hmatch] at h2; simp at h2
  | a :: c :: t =>
    have hal : a ∈ users.filter (fun v => v.role == Role.ADMIN) := by
      rw [hmatch]; exact List.mem_cons_self _ _
    have hcl : c ∈ users.filter (fun v => v.role == Role.ADMIN) := by
      rw [hmatch]; exact List.mem_cons_of_mem _ (List.mem_cons_self _ _)
    have hau : a ∈ users := List.mem_of_mem_filter hal
    have hcu : c ∈ users := List.mem_of_mem_filter hcl
    have har : a.role = Role.ADMIN := by simpa using (List.mem_filter.mp hal).2
    have hcr : c.role = Role.ADMIN := by simpa using (List.mem_filter.mp hcl).2
    have hlnodup :
        ((users.filter (fun v => v.role == Role.ADMIN)).map (·.id)).Nodup :=
      List.Nodup.sublist ((List.filter_sublist users).map (·.id)) hn
    have hac : a.id ≠ c.id := by
      rw [hmatch, List.map_cons, List.map_cons, List.nodup_cons] at hlnodup
      intro h
      exact hlnodup.1 (by rw [h]; exact List.mem_cons_self _ _)
    by_cases ha : a.id = targetId
    · exact ⟨c, hcu, hcr, fun hc => hac (ha.trans hc.symm)⟩
    · exact ⟨a, hau, har, ha⟩

theorem applyRole_none (users : List User) (targetId : Nat) :
    applyRole users targetId none = users := by
  unfold applyRole
  have : ∀ v ∈ users,
      (if v.id = targetId then { v with role := (none : Option Role).getD v.role }
       else v) = v := by
    intro v _
    by_cases h : v.id = targetId
    · simp only [if_pos h, Option.getD_none]
    · rw [if_neg h]
  rw [List.map_congr_left this]
  simp

theorem adminCount_append (l1 l2 : List User) :
    adminCount (l1 ++ l2) = adminCount l1 + adminCount l2 := by
  unfold adminCount
  rw [List.filter_append, List.length_append]

/-! ## Claim theorems: the card ordering engine -/

/-- C1 (amended): after any sequence of card create and move operations from
a well-formed table (distinct primary keys, every partition dense), the
positions in every `(board, column)` partition are exactly `{0, …, n-1}`
with no duplicates.  The delete handler performs no renumbering, so density
after a delete fails — see `C1_delete_leaves_gap`. -/
theorem C1_dense_after_create_and_move (ops : List CardOp) (s : List Card)
    (hn : IdsNodup s) (hd : ∀ b col, Dense s b col) :
    ∀ b col, Dense (runCardOps ops s) b col :=
  (runCardOps_good hn hd ops).2

theorem C1_dense_after_create_and_move_witness :
    Dense (runCardOps [CardOp.create 0 .BACKLOG, CardOp.create 0 .BACKLOG,
      CardOp.create 0 .TODO, CardOp.move 0 9 1 .TODO 0] []) 0 .TODO :=
  C1_dense_after_create_and_move
    [CardOp.create 0 .BACKLOG, CardOp.create 0 .BACKLOG,
      CardOp.create 0 .TODO, CardOp.move 0 9 1 .TODO 0] []
    (by decide) (fun b col => by simp [Dense, positionsOf, colCards]) 0 .TODO

/-- C1 counterexample: create three cards in BACKLOG (positions 0, 1, 2) and
delete the middle one through `DELETE /cards/:id`; the surviving positions
are `{0, 2}`, not `{0, 1}` — the handler does not renumber, refuting the
claim that density holds after every delete. -/
theorem C1_delete_leaves_gap :
    deleteCard (runCardOps [CardOp.create 0 .BACKLOG, CardOp.create 0 .BACKLOG,
        CardOp.create 0 .BACKLOG] []) 0 2
      = .ok [{ id := 1, boardId := 0, column := .BACKLOG, position := 0, participants := [] }, { id := 3, boardId := 0, column := .BACKLOG, position := 2, participants := [] }] ∧
    ¬ Dense ([{ id := 1, boardId := 0, column := .BACKLOG, position := 0, participants := [] }, { id := 3, boardId := 0, column := .BACKLOG, position := 2, participants := [] }] : List Card) 0 .BACKLOG := by
  decide

/-- C2: a cross-column move of a card from its column X to a different
column Y at requested index `toIndex` clamps the index to `[0, |Y|]` and, in
the single transaction, leaves X with its prior order minus the card at
dense positions `0…n-2`, puts the moved card at the clamped index of Y whose
positions become dense `0…m`, and updates the moved card's column field. -/
theorem C2_cross_move_spec {s : List Card} (card : Card)
    {b actorId cid toIndex : Nat} {Y : ColumnId}
    (hn : IdsNodup s) (hc : card ∈ s) (hid : card.id = cid)
    (hb : card.boardId = b) (hXY : card.column ≠ Y) :
    ∃ s' ev,
      moveCard s b actorId cid Y toIndex = .ok (s', some ev) ∧
      order s' b card.column = (order s b card.column).erase cid ∧
      (positionsOf s' b card.column).Perm
        (List.range ((colCards s b card.column).length - 1)) ∧
      order s' b Y =
        insertAt (min toIndex (colCards s b Y).length) cid (order s b Y) ∧
      (positionsOf s' b Y).Perm
        (List.range ((colCards s b Y).length + 1)) ∧
      (order s' b Y)[min toIndex (colCards s b Y).length]? = some cid ∧
      (∀ c ∈ s', c.id = cid → c.column = Y) := by
  rcases moveCard_cross hn card b actorId cid toIndex Y hc hid hb hXY with
    ⟨s', hcomp, hordX, hdX, hordY, hdY, hmoved, _, _⟩
  refine ⟨s', _, hcomp, hordX, hdX, hordY, hdY, ?_, hmoved⟩
  rw [hordY]
  apply insertAt_getElem
  rw [order_length]
  exact Nat.min_le_right _ _

theorem C2_cross_move_spec_witness :
    ∃ s' ev,
      moveCard [{ id := 1, boardId := 0, column := .BACKLOG, position := 0, participants := [7, 9] }, { id := 2, boardId := 0, column := .BACKLOG, position := 1, participants := [] }, { id := 3, boardId := 0, column := .TODO, position := 0, participants := [] }] 0 7 1 .TODO 5 = .ok (s', some ev) ∧
      order s' 0 ({ id := 1, boardId := 0, column := .BACKLOG, position := 0, participants := [7, 9] } : Card).column
        = (order [{ id := 1, boardId := 0, column := .BACKLOG, position := 0, participants := [7, 9] }, { id := 2, boardId := 0, column := .BACKLOG, position := 1, participants := [] }, { id := 3, boardId := 0, column := .TODO, position := 0, participants := [] }] 0 ({ id := 1, boardId := 0, column := .BACKLOG, position := 0, participants := [7, 9] } : Card).column).erase 1 ∧
      (positionsOf s' 0 ({ id := 1, boardId := 0, column := .BACKLOG, position := 0, participants := [7, 9] } : Card).column).Perm
        (List.range ((colCards [{ id := 1, boardId := 0, column := .BACKLOG, position := 0, participants := [7, 9] }, { id := 2, boardId := 0, column := .BACKLOG, position := 1, participants := [] }, { id := 3, boardId := 0, column := .TODO, position := 0, participants := [] }] 0 ({ id := 1, boardId := 0, column := .BACKLOG, position := 0, participants := [7, 9] } : Card).column).length - 1)) ∧
      order s' 0 .TODO
        = insertAt (min 5 (colCards [{ id := 1, boardId := 0, column := .BACKLOG, position := 0, participants := [7, 9] }, { id := 2, boardId := 0, column := .BACKLOG, position := 1, participants := [] }, { id := 3, boardId := 0, column := .TODO, position := 0, participants := [] }] 0 .TODO).length) 1
            (order [{ id := 1, boardId := 0, column := .BACKLOG, position := 0, participants := [7, 9] }, { id := 2, boardId := 0, column := .BACKLOG, position := 1, participants := [] }, { id := 3, boardId := 0, column := .TODO, position := 0, participants := [] }] 0 .TODO) ∧
      (positionsOf s' 0 .TODO).Perm
        (List.range ((colCards [{ id := 1, boardId := 0, column := .BACKLOG, position := 0, participants := [7, 9] }, { id := 2, boardId := 0, column := .BACKLOG, position := 1, participants := [] }, { id := 3, boardId := 0, column := .TODO, position := 0, participants := [] }] 0 .TODO).length + 1)) ∧
      (order s' 0 .TODO)[min 5 (colCards [{ id := 1, boardId := 0, column := .BACKLOG, position := 0, participants := [7, 9] }, { id := 2, boardId := 0, column := .BACKLOG, position := 1, participants := [] }, { id := 3, boardId := 0, column := .TODO, position := 0, participants := [] }] 0 .TODO).length]? = some 1 ∧
      (∀ c ∈ s', c.id = 1 → c.column = .TODO) :=
  C2_cross_move_spec { id := 1, boardId := 0, column := .BACKLOG, position := 0, participants := [7, 9] } (by decide) (by decide) rfl rfl (by decide)

/-- C5: a card whose `boardId` is A is reported `404 Card not found` — never
`403 Forbidden` — by `GET /cards/:id` and `POST /cards/:id/move` under a
session whose active board is B ≠ A, so its existence is not leaked. -/
theorem C5_board_isolation {s : List Card} (A : Nat) {B cid actorId : Nat}
    {toCol : ColumnId} {toIndex : Nat}
    (hA : ∀ c ∈ s, c.id = cid → c.boardId = A) (hAB : A ≠ B) :
    getCard s B cid = .error cardNotFound ∧
    moveCard s B actorId cid toCol toIndex = .error cardNotFound ∧
    cardNotFound.status = 404 := by
  have hfind : s.find? (fun c => c.id == cid && c.boardId == B) = none := by
    rw [List.find?_eq_none]
    intro c hcs hp
    rw [Bool.and_eq_true, beq_iff_eq, beq_iff_eq] at hp
    exact hAB ((hA c hcs hp.1).symm.trans hp.2)
  refine ⟨?_, moveCard_err hfind, rfl⟩
  unfold getCard
  rw [hfind]

theorem C5_board_isolation_witness :
    getCard [{ id := 4, boardId := 1, column := .DONE, position := 0, participants := [] }] 2 4 = .error cardNotFound ∧
    moveCard [{ id := 4, boardId := 1, column := .DONE, position := 0, participants := [] }] 2 9 4 .TODO 0 = .error cardNotFound ∧
    cardNotFound.status = 404 :=
  C5_board_isolation 1 (by decide) (by decide)

/-- C8 (amended): moving a card to its current column at its current index
dispatches no notification, and — provided the partition's positions are
dense, as they are in every delete-free history — rewrites every position to
its existing value, so the card table is unchanged.  After a delete the
partition can be non-dense, and the unconditional rewrite then renumbers
sibling cards: see `C8_rewrite_after_gap`. -/
theorem C8_noop_move_at_current_index {s : List Card} (card : Card)
    {b actorId cid : Nat}
    (hn : IdsNodup s) (hc : card ∈ s) (hid : card.id = cid)
    (hb : card.boardId = b) (hd : Dense s b card.column) :
    moveCard s b actorId cid card.column ((order s b card.column).indexOf cid)
      = .ok (s, none) := by
  have hcidX : cid ∈ order s b card.column :=
    mem_order.mpr ⟨card, hc, hid, hb, rfl⟩
  rcases moveCard_same hn card b actorId cid
    ((order s b card.column).indexOf cid) hc hid hb with
    ⟨s', hcomp, hset, _, _, _, _⟩
  have hlt : (order s b card.column).indexOf cid
      < (order s b card.column).length := List.indexOf_lt_length.mpr hcidX
  have hlen : ((order s b card.column).erase cid).length
      = (order s b card.column).length - 1 := List.length_erase_of_mem hcidX
  have hmin : min ((order s b card.column).indexOf cid)
      ((order s b card.column).erase cid).length
      = (order s b card.column).indexOf cid := by
    rw [hlen]; omega
  have hins : insertAt ((order s b card.column).indexOf cid) cid
      ((order s b card.column).erase cid) = order s b card.column :=
    insertAt_indexOf_erase hcidX
  rw [hmin, hins] at hset
  have hsid : setPositions (order s b card.column) s = s := by
    unfold setPositions
    have hfix : ∀ c ∈ s,
        (if c.id ∈ order s b card.column
         then { c with position := (order s b card.column).indexOf c.id }
         else c) = c := by
      intro c hcs
      by_cases hmem : c.id ∈ order s b card.column
      · rw [if_pos hmem]
        have hcC : c ∈ colCards s b card.column :=
          mem_cards_of_id_mem hn hcs
            ((order_perm s b card.column).mem_iff.mp hmem)
        rw [indexOf_order_of_dense hn hd hcC]
      · rw [if_neg hmem]
    rw [List.map_congr_left hfix]
    simp
  rw [hset, hsid] at hcomp
  exact hcomp

theorem C8_noop_move_at_current_index_witness :
    moveCard [{ id := 1, boardId := 0, column := .BACKLOG, position := 0, participants := [] }, { id := 2, boardId := 0, column := .BACKLOG, position := 1, participants := [] }] 0 99 2 ({ id := 2, boardId := 0, column := .BACKLOG, position := 1, participants := [] } : Card).column
      ((order [{ id := 1, boardId := 0, column := .BACKLOG, position := 0, participants := [] }, { id := 2, boardId := 0, column := .BACKLOG, position := 1, participants := [] }] 0 ({ id := 2, boardId := 0, column := .BACKLOG, position := 1, participants := [] } : Card).column).indexOf 2)
      = .ok ([{ id := 1, boardId := 0, column := .BACKLOG, position := 0, participants := [] }, { id := 2, boardId := 0, column := .BACKLOG, position := 1, participants := [] }], none) :=
  C8_noop_move_at_current_index { id := 2, boardId := 0, column := .BACKLOG, position := 1, participants := [] } (by decide) (by decide) rfl rfl (by decide)

/-- C8 counterexample: from the post-delete state with positions `{0, 2}`
(reachable, as the first conjunct shows), moving card 1 — which sits at
index 0 of BACKLOG — to BACKLOG index 0 is claimed to change no position,
but the unconditional rewrite changes card 3's position from 2 to 1. -/
theorem C8_rewrite_after_gap :
    deleteCard (runCardOps [CardOp.create 0 .BACKLOG, CardOp.create 0 .BACKLOG,
        CardOp.create 0 .BACKLOG] []) 0 2 = .ok [{ id := 1, boardId := 0, column := .BACKLOG, position := 0, participants := [] }, { id := 3, boardId := 0, column := .BACKLOG, position := 2, participants := [] }] ∧
    (order [{ id := 1, boardId := 0, column := .BACKLOG, position := 0, participants := [] }, { id := 3, boardId := 0, column := .BACKLOG, position := 2, participants := [] }] 0 .BACKLOG).indexOf 1 = 0 ∧
    moveCard [{ id := 1, boardId := 0, column := .BACKLOG, position := 0, participants := [] }, { id := 3, boardId := 0, column := .BACKLOG, position := 2, participants := [] }] 0 99 1 .BACKLOG 0 = .ok ([{ id := 1, boardId := 0, column := .BACKLOG, position := 0, participants := [] }, { id := 3, boardId := 0, column := .BACKLOG, position := 1, participants := [] }], none) ∧
    ([{ id := 1, boardId := 0, column := .BACKLOG, position := 0, participants := [] }, { id := 3, boardId := 0, column := .BACKLOG, position := 1, participants := [] }] : List Card) ≠ [{ id := 1, boardId := 0, column := .BACKLOG, position := 0, participants := [] }, { id := 3, boardId := 0, column := .BACKLOG, position := 2, participants := [] }] := by
  decide

/-- C10: a same-column move — whatever the requested index, even when the
order changes — dispatches no participant notification; a cross-column move
always dispatches exactly one `"moved"` notification whose recipients are
the card's participants minus the actor. -/
theorem C10_move_notification_frame (s : List Card) (card : Card)
    (b actorId cid : Nat) (toCol : ColumnId)
    (hn : IdsNodup s) (hc : card ∈ s) (hid : card.id = cid)
    (hb : card.boardId = b) :
    (∀ toIndex, card.column = toCol →
      ∃ s', moveCard s b actorId cid toCol toIndex = .ok (s', none)) ∧
    (∀ toIndex, card.column ≠ toCol →
      ∃ s', moveCard s b actorId cid toCol toIndex
        = .ok (s', some { cardId := cid, fromColumn := card.column,
                           toColumn := toCol,
                           recipients := card.participants.filter
                             (fun uid => uid != actorId) })) := by
  constructor
  · intro toIndex hcol
    subst hcol
    rcases moveCard_same hn card b actorId cid toIndex hc hid hb with
      ⟨s', hcomp, _⟩
    exact ⟨s', hcomp⟩
  · intro toIndex hcol
    rcases moveCard_cross hn card b actorId cid toIndex toCol hc hid hb
      hcol with ⟨s', hcomp, _⟩
    exact ⟨s', hcomp⟩

theorem C10_move_notification_frame_witness :
    (∃ s', moveCard [{ id := 1, boardId := 0, column := .BACKLOG, position := 0, participants := [5, 7] }, { id := 2, boardId := 0, column := .BACKLOG, position := 1, participants := [] }] 0 5 1 .BACKLOG 1 = .ok (s', none)) ∧
    (∃ s', moveCard [{ id := 1, boardId := 0, column := .BACKLOG, position := 0, participants := [5, 7] }, { id := 2, boardId := 0, column := .BACKLOG, position := 1, participants := [] }] 0 5 1 .DONE 0
      = .ok (s', some { cardId := 1, fromColumn := .BACKLOG,
                         toColumn := .DONE, recipients := [7] })) := by
  have h := C10_move_notification_frame [{ id := 1, boardId := 0, column := .BACKLOG, position := 0, participants := [5, 7] }, { id := 2, boardId := 0, column := .BACKLOG, position := 1, participants := [] }] { id := 1, boardId := 0, column := .BACKLOG, position := 0, participants := [5, 7] }
    0 5 1 .BACKLOG (by decide) (by decide) rfl rfl
  have h2 := C10_move_notification_frame [{ id := 1, boardId := 0, column := .BACKLOG, position := 0, participants := [5, 7] }, { id := 2, boardId := 0, column := .BACKLOG, position := 1, participants := [] }] { id := 1, boardId := 0, column := .BACKLOG, position := 0, participants := [5, 7] }
    0 5 1 .DONE (by decide) (by decide) rfl rfl
  refine ⟨h.1 1 rfl, ?_⟩
  rcases h2.2 0 (by decide) with ⟨s', hcomp⟩
  refine ⟨s', ?_⟩
  rw [hcomp]
  rfl

/-! ## Claim theorems: authentication and sessions -/

/-- C4: for a user with TOTP enabled and a correct password, login with no
code and no (or an invalid) trusted-device cookie fails with the
`Two-factor required` error and establishes no session; with a valid
unexpired trusted-device cookie it succeeds without prompting; with a wrong
code it fails with the `Invalid 2FA code` error, again establishing no
session, so the session stays two-factor-unsatisfied. -/
theorem C4_two_factor_gating {users : List User} {devices : List TrustedDevice}
    (u : User) {loginId password : Str} {secret now : Nat}
    (hres : resolveLoginUser users loginId = .ok (some u))
    (hpw : password = u.password)
    (htotp : u.totpEnabled = true) (hsec : u.totpSecret = some secret) :
    (login users devices loginId password none none now
      = .error twoFactorRequired) ∧
    (∀ t, verifyTrustedDeviceToken devices u.id t now = false →
      login users devices loginId password none (some t) now
        = .error twoFactorRequired) ∧
    (∀ t, verifyTrustedDeviceToken devices u.id t now = true →
      login users devices loginId password none (some t) now
        = .ok { userId := u.id, twoFactorPassed := true }) ∧
    (∀ code, code ≠ secret →
      login users devices loginId password (some code) none now
        = .error invalid2faCode) := by
  have hpw' : (password != u.password) = false := by simp [hpw]
  refine ⟨?_, ?_, ?_, ?_⟩
  · unfold login
    rw [hres]
    simp [hpw', htotp, hsec]
  · intro t ht
    unfold login
    rw [hres]
    simp [hpw', htotp, hsec, ht]
  · intro t ht
    unfold login
    rw [hres]
    simp [hpw', htotp, hsec, ht]
  · intro code hcode
    unfold login
    rw [hres]
    simp [hpw', htotp, hsec, verifyTotp, hcode]

theorem C4_two_factor_gating_witness :
    (login [uTotp] [{ userId := 1, tokenHash := 42, expiresAt := 100 }]
      [120, 64, 121] [112] none none 50 = .error twoFactorRequired) ∧
    (∀ t, verifyTrustedDeviceToken
        [{ userId := 1, tokenHash := 42, expiresAt := 100 }] uTotp.id t 50
          = false →
      login [uTotp] [{ userId := 1, tokenHash := 42, expiresAt := 100 }]
        [120, 64, 121] [112] none (some t) 50 = .error twoFactorRequired) ∧
    (∀ t, verifyTrustedDeviceToken
        [{ userId := 1, tokenHash := 42, expiresAt := 100 }] uTotp.id t 50
          = true →
      login [uTotp] [{ userId := 1, tokenHash := 42, expiresAt := 100 }]
        [120, 64, 121] [112] none (some t) 50
        = .ok { userId := uTotp.id, twoFactorPassed := true }) ∧
    (∀ code, code ≠ 111 →
      login [uTotp] [{ userId := 1, tokenHash := 42, expiresAt := 100 }]
        [120, 64, 121] [112] (some code) none 50 = .error invalid2faCode) :=
  C4_two_factor_gating uTotp (by decide) rfl rfl rfl

/-- C7: an unresolvable identifier and a wrong password produce the same
`Invalid credentials` error value, while a bare display name matching two or
more users case-insensitively fails with the distinct `Ambiguous login, use
email` error. -/
theorem C7_login_error_distinction {users : List User}
    {devices : List TrustedDevice} {loginId password : Str}
    {totp cookieToken : Option Nat} {now : Nat} :
    (resolveLoginUser users loginId = .ok none →
      login users devices loginId password totp cookieToken now
        = .error invalidCredentials) ∧
    (∀ u, resolveLoginUser users loginId = .ok (some u) →
      password ≠ u.password →
      login users devices loginId password totp cookieToken now
        = .error invalidCredentials) ∧
    (lowerStr (trimStr loginId) ≠ adminStr →
      hasAt (trimStr loginId) = false →
      2 ≤ (users.filter (fun u => eqCI u.name (trimStr loginId))).length →
      login users devices loginId password totp cookieToken now
        = .error ambiguousLogin) ∧
    ambiguousLogin ≠ invalidCredentials := by
  refine ⟨?_, ?_, ?_, ?_⟩
  · intro h
    unfold login
    rw [h]
  · intro u hres hne
    have hpw : (password != u.password) = true := bne_iff_ne.mpr hne
    unfold login
    rw [hres]
    simp [hpw]
  · intro h1 h2 h3
    have hres : resolveLoginUser users loginId = .error ambiguousLogin := by
      unfold resolveLoginUser
      have hlen : ((users.filter
          (fun u => eqCI u.name (trimStr loginId))).take 2).length = 2 := by
        rw [List.length_take]
        omega
      simp [h1, h2, hlen]
    unfold login
    rw [hres]
  · intro h
    exact absurd (congrArg HttpError.status h) (by decide)

theorem C7_login_error_distinction_witness :
    (login [uNameA, uNameB] [] [122] [112] none none 0
      = .error invalidCredentials) ∧
    (login [uNameA, uNameB] [] [97, 64, 98] [113] none none 0
      = .error invalidCredentials) ∧
    (login [uNameA, uNameB] [] [110, 110] [112] none none 0
      = .error ambiguousLogin) ∧
    ambiguousLogin ≠ invalidCredentials := by
  refine ⟨(@C7_login_error_distinction [uNameA, uNameB] [] [122] [112]
      none none 0).1 (by decide),
    (@C7_login_error_distinction [uNameA, uNameB] [] [97, 64, 98] [113]
      none none 0).2.1 uNameA (by decide) (by decide),
    (@C7_login_error_distinction [uNameA, uNameB] [] [110, 110] [112]
      none none 0).2.2.1 (by decide) (by decide) (by decide),
    (@C7_login_error_distinction [uNameA, uNameB] [] [122] [112]
      none none 0).2.2.2⟩

/-- C3 (amended): a successful reset through either path deletes every
`session` row of the affected user; the TOTP path additionally deletes every
trusted-device row of the user, so their trusted-device tokens fail
verification afterwards, but the emailed-token path leaves the
`TrustedDevice` table untouched — a previously issued trusted-device token
of that user still verifies (`C3_token_path_keeps_trusted_devices`). -/
theorem C3_password_reset_invalidation {db : AuthDb} {token : Nat}
    {newPw : Str} {now : Nat} :
    (∀ db' r, db.resetTokens.find?
        (fun t => t.tokenHash == token && now < t.expiresAt && !t.used)
        = some r →
      resetPassword db token newPw now = .ok db' →
      (∀ sr ∈ db'.sessions, sr.userId ≠ r.userId) ∧
      db'.devices = db.devices) ∧
    (∀ loginId code db' u, resolveResetUser db.users loginId = some u →
      resetPasswordByTotp db loginId code newPw = .ok db' →
      (∀ sr ∈ db'.sessions, sr.userId ≠ u.id) ∧
      (∀ t now2, verifyTrustedDeviceToken db'.devices u.id t now2 = false)) := by
  constructor
  · intro db' r hfind hok
    unfold resetPassword at hok
    rw [hfind] at hok
    injection hok with hok
    subst hok
    constructor
    · intro sr hsr
      have := (List.mem_filter.mp hsr).2
      simpa using this
    · rfl
  · intro loginId code db' u hres hok
    unfold resetPasswordByTotp at hok
    rw [hres] at hok
    dsimp only at hok
    cases htotp : u.totpEnabled with
    | false => rw [htotp] at hok; simp at hok
    | true =>
      rw [htotp] at hok
      cases hsec : u.totpSecret with
      | none => rw [hsec] at hok; simp at hok
      | some secret =>
        rw [hsec] at hok
        dsimp only at hok
        by_cases hv : verifyTotp code secret = true
        · rw [hv] at hok
          simp only [Bool.not_true, Bool.false_eq_true, if_false] at hok
          injection hok with hok
          subst hok
          constructor
          · intro sr hsr
            have := (List.mem_filter.mp hsr).2
            simpa using this
          · intro t now2
            rw [verifyTrustedDeviceToken]
            rw [List.any_eq_false]
            intro d hd
            have hdne : d.userId ≠ u.id := by
              have := (List.mem_filter.mp hd).2
              simpa using this
            simp [hdne]
        · have hv' : verifyTotp code secret = false :=
            Bool.eq_false_iff.mpr hv
          rw [hv'] at hok
          simp at hok

theorem C3_password_reset_invalidation_witness :
    (∀ sr ∈ ({ users := [{ uMust with password := [113], mustChangePassword := false }], sessions := [], devices := [{ userId := 1, tokenHash := 77, expiresAt := 100 }], resetTokens := [{ rtid := 0, tokenHash := 5, userId := 1, expiresAt := 100, used := true }] } : AuthDb).sessions,
        sr.userId ≠ 1) ∧
      ({ users := [{ uMust with password := [113], mustChangePassword := false }], sessions := [], devices := [{ userId := 1, tokenHash := 77, expiresAt := 100 }], resetTokens := [{ rtid := 0, tokenHash := 5, userId := 1, expiresAt := 100, used := true }] } : AuthDb).devices
        = dbC3.devices := by
  exact (@C3_password_reset_invalidation dbC3 5 [113] 50).1 _
    { rtid := 0, tokenHash := 5, userId := 1, expiresAt := 100, used := false }
    (by decide) (by decide)

/-- C3 counterexample: redeeming the emailed reset token deletes the user's
sessions (`sessionAlive` turns false) but leaves the trusted-device row
intact, so the previously issued trusted-device token still passes
`verifyTrustedDeviceToken` — refuting the claim that both paths invalidate
trusted devices. -/
theorem C3_token_path_keeps_trusted_devices :
    (resetPassword dbC3 5 [113] 50).map
      (fun db => (verifyTrustedDeviceToken db.devices 1 77 60,
                  sessionAlive db 10))
      = .ok (true, false) := by decide

/-- C9 (amended): the server-side gate in front of every board and card
endpoint checks only login, then TOTP enrollment, then the session's
two-factor flag, and never consults `mustChangePassword`
(`C9_gate_ignores_must_change_password`); the precedence
must-change-password > 2FA-setup > 2FA-verify > authorized is enforced by
the frontend view router. -/
theorem C9_gate_and_client_precedence (u : User) (tf : Bool) :
    (apiGate (some u) tf = .ok u ↔ (u.totpEnabled = true ∧ tf = true)) ∧
    (apiGate none tf = .error unauthorized) ∧
    (u.mustChangePassword = true →
      clientRoute (some u) tf = .changePasswordView) ∧
    (u.mustChangePassword = false → u.totpEnabled = false →
      clientRoute (some u) tf = .twoFaSetupView) ∧
    (u.mustChangePassword = false → u.totpEnabled = true → tf = false →
      clientRoute (some u) tf = .twoFaVerifyView) ∧
    (u.mustChangePassword = false → u.totpEnabled = true → tf = true →
      clientRoute (some u) tf = .boardView) ∧
    clientRoute none tf = .loginView := by
  refine ⟨?_, rfl, ?_, ?_, ?_, ?_, rfl⟩
  · cases htot : u.totpEnabled <;> cases htf : tf <;>
      simp [apiGate, requireLoginCheck, requireTwoFactorCheck, htot, htf]
  · intro h
    simp [clientRoute, h]
  · intro h1 h2
    simp [clientRoute, h1, h2]
  · intro h1 h2 h3
    simp [clientRoute, h1, h2, h3]
  · intro h1 h2 h3
    simp [clientRoute, h1, h2, h3]

theorem C9_gate_and_client_precedence_witness :
    apiGate (some uMust) true = .ok uMust ∧
    clientRoute (some uMust) true = .changePasswordView :=
  ⟨((C9_gate_and_client_precedence uMust true).1).mpr ⟨rfl, rfl⟩,
    (C9_gate_and_client_precedence uMust true).2.2.1 rfl⟩

/-- C9 counterexample: a session whose user has `mustChangePassword = true`
but TOTP enabled and verified passes the board/card middleware chain —
board and card requests are not refused while the password change is
pending, refuting the claimed server-side enforcement. -/
theorem C9_gate_ignores_must_change_password :
    apiGate (some uMust) true = .ok uMust ∧
    uMust.mustChangePassword = true := by decide

/-- Auxiliary for C6: some admin exists when the count is positive. -/
theorem exists_admin_of_one_le {users : List User}
    (h : 1 ≤ adminCount users) : ∃ v ∈ users, v.role = Role.ADMIN := by
  unfold adminCount at h
  have hne : users.filter (fun v => v.role == Role.ADMIN) ≠ [] := by
    intro he
    rw [he] at h
    simp at h
  rcases List.exists_mem_of_ne_nil _ hne with ⟨v, hv⟩
  exact ⟨v, List.mem_of_mem_filter hv, by simpa using (List.mem_filter.mp hv).2⟩

/-- C6: demoting or deleting the sole remaining admin fails with a 400-class
business error and the state is unchanged (the handler throws before any
write); the system admin can never be deleted nor have a role supplied for
it regardless of the admin count; and every admin user-management operation
preserves the existence of at least one ADMIN. -/
theorem C6_last_admin_protection {users : List User} (target : User)
    {targetId actorId : Nat} (hn : (users.map (·.id)).Nodup)
    (hmem : target ∈ users) (hid : target.id = targetId) :
    (target.role = Role.ADMIN → adminCount users ≤ 1 →
      ∃ e, patchUserRole users targetId (some Role.MEMBER) = .error e ∧
        e.status = 400) ∧
    (target.role = Role.ADMIN → adminCount users ≤ 1 →
      ∃ e, deleteUser users actorId targetId = .error e ∧ e.status = 400) ∧
    (target.isSystem = true →
      (∀ r, patchUserRole users targetId (some r)
        = .error cannotChangeSystemRole) ∧
      (∃ e, deleteUser users actorId targetId = .error e ∧ e.status = 400)) ∧
    (1 ≤ adminCount users →
      (∀ newRole users', patchUserRole users targetId newRole = .ok users' →
        1 ≤ adminCount users') ∧
      (∀ users', deleteUser users actorId targetId = .ok users' →
        1 ≤ adminCount users') ∧
      (∀ newId email name password r,
        1 ≤ adminCount (createUser users newId email name password r))) := by
  have hfind : users.find? (fun u => u.id == targetId) = some target :=
    find?_user_eq hn hmem hid
  refine ⟨?_, ?_, ?_, ?_⟩
  · -- demoting the sole admin
    intro hrole hcount
    unfold patchUserRole
    rw [hfind]
    by_cases hsys : target.isSystem = true
    · refine ⟨cannotChangeSystemRole, ?_, rfl⟩
      simp [hsys]
    · refine ⟨cannotDemoteLastAdmin, ?_, rfl⟩
      have hsys' : target.isSystem = false := Bool.eq_false_iff.mpr hsys
      simp [hsys', hrole, hcount]
  · -- deleting the sole admin
    intro hrole hcount
    unfold deleteUser
    by_cases hself : targetId = actorId
    · refine ⟨cannotDeleteSelf, ?_, rfl⟩
      simp [hself]
    · have hself' : (targetId == actorId) = false := by simp [hself]
      rw [hself']
      simp only [Bool.false_eq_true, if_false]
      rw [hfind]
      by_cases hsys : target.isSystem = true
      · refine ⟨cannotDeleteSystemAdmin, ?_, rfl⟩
        simp [hsys]
      · refine ⟨cannotDeleteLastAdmin, ?_, rfl⟩
        have hsys' : target.isSystem = false := Bool.eq_false_iff.mpr hsys
        simp [hsys', hrole, hcount]
  · -- the system admin is immutable
    intro hsys
    constructor
    · intro r
      unfold patchUserRole
      rw [hfind]
      simp [hsys]
    · unfold deleteUser
      by_cases hself : targetId = actorId
      · refine ⟨cannotDeleteSelf, ?_, rfl⟩
        simp [hself]
      · have hself' : (targetId == actorId) = false := by simp [hself]
        rw [hself']
        simp only [Bool.false_eq_true, if_false]
        rw [hfind]
        refine ⟨cannotDeleteSystemAdmin, ?_, rfl⟩
        simp [hsys]
  · -- at least one admin remains after every operation
    intro h1
    refine ⟨?_, ?_, ?_⟩
    · -- PATCH
      intro newRole users' hok
      unfold patchUserRole at hok
      rw [hfind] at hok
      dsimp only at hok
      by_cases hguard : (target.isSystem && newRole.isSome) = true
      · rw [if_pos hguard] at hok
        cases hok
      · rw [if_neg hguard] at hok
        by_cases hdem : (newRole == some Role.MEMBER
            && target.role == Role.ADMIN) = true
        · rw [if_pos hdem] at hok
          by_cases hle : adminCount users ≤ 1
          · rw [if_pos hle] at hok
            cases hok
          · rw [if_neg hle] at hok
            injection hok with hok
            subst hok
            have h2 : 2 ≤ adminCount users := by omega
            rcases exists_other_admin hn h2 targetId with ⟨v, hv, hvr, hvne⟩
            have hv' : v ∈ applyRole users targetId newRole := by
              unfold applyRole
              have : (if v.id = targetId then
                  { v with role := newRole.getD v.role } else v) = v :=
                if_neg hvne
              rw [← this]
              exact List.mem_map_of_mem _ hv
            have : (if v.id = targetId then
                { v with role := newRole.getD v.role } else v) = v :=
              if_neg hvne
            exact one_le_adminCount_of_mem hv' hvr
        · rw [if_neg hdem] at hok
          injection hok with hok
          subst hok
          match hr : newRole with
          | none =>
            rw [applyRole_none]
            exact h1
          | some Role.ADMIN =>
            have hupd : ({ target with role := (some Role.ADMIN).getD target.role })
                ∈ applyRole users targetId (some Role.ADMIN) := by
              unfold applyRole
              have : (if target.id = targetId then
                  { target with role := (some Role.ADMIN).getD target.role }
                  else target)
                  = { target with role := (some Role.ADMIN).getD target.role } :=
                if_pos hid
              rw [← this]
              exact List.mem_map_of_mem _ hmem
            exact one_le_adminCount_of_mem hupd rfl
          | some Role.MEMBER =>
            have htr : target.role ≠ Role.ADMIN := by
              intro hadm
              exact hdem (by simp [hadm])
            rcases exists_admin_of_one_le h1 with ⟨v, hv, hvr⟩
            have hvne : v.id ≠ targetId := by
              intro hveq
              have : v = target := eq_of_mem_users hn hv hmem (hveq.trans hid.symm)
              rw [this] at hvr
              exact htr hvr
            have hv' : v ∈ applyRole users targetId (some Role.MEMBER) := by
              unfold applyRole
              have heq : (if v.id = targetId then
                  { v with role := (some Role.MEMBER).getD v.role } else v) = v :=
                if_neg hvne
              rw [← heq]
              exact List.mem_map_of_mem _ hv
            exact one_le_adminCount_of_mem hv' hvr
    · -- DELETE
      intro users' hok
      unfold deleteUser at hok
      by_cases hself : (targetId == actorId) = true
      · rw [if_pos hself] at hok
        cases hok
      · rw [if_neg hself] at hok
        rw [hfind] at hok
        dsimp only at hok
        by_cases hsys : target.isSystem = true
        · rw [if_pos hsys] at hok
          cases hok
        · have hsys' : target.isSystem = false := Bool.eq_false_iff.mpr hsys
          rw [hsys'] at hok
          simp only [Bool.false_eq_true, if_false] at hok
          by_cases hguard : (target.role == Role.ADMIN
              && decide (adminCount users ≤ 1)) = true
          · rw [if_pos hguard] at hok
            cases hok
          · rw [if_neg hguard] at hok
            injection hok with hok
            subst hok
            by_cases htr : target.role = Role.ADMIN
            · have h2 : 2 ≤ adminCount users := by
                by_contra hlt
                exact hguard (by simp [htr]; omega)
              rcases exists_other_admin hn h2 targetId with ⟨v, hv, hvr, hvne⟩
              have hv' : v ∈ users.filter (fun w => w.id != targetId) :=
                List.mem_filter.mpr ⟨hv, by simp [hvne]⟩
              exact one_le_adminCount_of_mem hv' hvr
            · rcases exists_admin_of_one_le h1 with ⟨v, hv, hvr⟩
              have hvne : v.id ≠ targetId := by
                intro hveq
                have : v = target :=
                  eq_of_mem_users hn hv hmem (hveq.trans hid.symm)
                rw [this] at hvr
                exact htr hvr
              have hv' : v ∈ users.filter (fun w => w.id != targetId) :=
                List.mem_filter.mpr ⟨hv, by simp [hvne]⟩
              exact one_le_adminCount_of_mem hv' hvr
    · -- CREATE
      intro newId email name password r
      unfold createUser
      rw [adminCount_append]
      omega

theorem C6_last_admin_protection_witness :
    (∃ e, patchUserRole [uSystem, uMember] 1 (some Role.MEMBER) = .error e ∧
      e.status = 400) ∧
    (∃ e, deleteUser [uSystem, uMember] 99 1 = .error e ∧ e.status = 400) ∧
    patchUserRole [uSystem, uMember] 1 (some Role.ADMIN)
      = .error cannotChangeSystemRole ∧
    (∀ users', patchUserRole [uSystem, uMember] 3 (some Role.ADMIN)
      = .ok users' → 1 ≤ adminCount users') := by
  have h := @C6_last_admin_protection [uSystem, uMember] uSystem 1 99
    (by decide) (by decide) rfl
  have h3 := @C6_last_admin_protection [uSystem, uMember] uMember 3 99
    (by decide) (by decide) rfl
  exact ⟨h.1 rfl (by decide), h.2.1 rfl (by decide),
    (h.2.2.1 rfl).1 Role.ADMIN,
    fun users' hok => (h3.2.2.2 (by decide)).1 (some Role.ADMIN) users' hok⟩

end Kanban
